import Mathlib

/-!
Verification development for the deterministic-lockstep networking demo.

The development shallowly embeds the core of the repository:

* `Command` / `CommandType`            — src/core/command/commands.ts
* `CommandManager` and its operations  — src/core/command/command-manager.ts
* `Network`, `Socket`, `Inbox`         — src/core/network.ts
* `Unit` and its `update` rule         — src/core/state/unit.ts

Modelling conventions:

* JavaScript numbers used as ticks are modelled as `Int` (ticks may go
  negative in intermediate arithmetic, e.g. the pruning key
  `tick - commandDelay - 1`); player ids as `Nat`.
* A JavaScript object used as a dictionary is modelled as an association
  list (`List (key × value)`) with JS assignment semantics; a JS `Set` is
  modelled as a `List Int` with add-if-absent / delete / clear operations,
  which also captures the insertion-order iteration of JS sets.
* `decimal.js` values are modelled as real numbers: the spec describes the
  arithmetic as exact decimal arithmetic with an exact square root, so the
  idealised exact model is `ℝ`.
* Asynchrony is modelled by a small-step relation `CommandManager.Step` on
  manager states: one step is either a `nextTick` call by the game loop, the
  processing of one inbound message by the receive task, one resend from the
  `waitForTick` retry loop, or a local `enqueueCommand`.  `Reachable` is its
  reflexive-transitive closure from a freshly constructed manager.
-/

namespace Lockstep

/-! ### Commands (src/core/command/commands.ts) -/

/-- Command variants: `Noop` (mandatory filler) and `Move {entityId, point}`,
both tagged with the issuing player id.  Points are decimal pairs, modelled
as pairs of reals. -/
inductive Command where
  | noop (playerId : Nat)
  | move (playerId : Nat) (entityId : Nat) (point : ℝ × ℝ)

/-! ### The JS default sort on player ids

`command-manager.ts` line 44 sorts `[playerId, ...otherPlayerIds].sort()`
with no comparator.  `Array.prototype.sort` without a comparator compares
elements as strings (their decimal representations), so `10` sorts before
`2`.  `jsKey n` is the big-endian digit list of `n` (empty for 0, which
compares exactly like the string "0" against any other id since no other
decimal representation starts with the digit 0) and `jsLE` is the induced
lexicographic order, matching the JS string order on ids. -/

def digitsGo : Nat → Nat → List Nat
  | 0, _ => []
  | _ + 1, 0 => []
  | fuel + 1, n + 1 => digitsGo fuel ((n + 1) / 10) ++ [(n + 1) % 10]

def jsKey (n : Nat) : List Nat := digitsGo (n + 1) n

def jsLE (a b : Nat) : Prop := jsKey a ≤ jsKey b

instance : DecidableRel jsLE := fun a b => inferInstanceAs (Decidable (jsKey a ≤ jsKey b))

instance : IsTotal Nat jsLE := ⟨fun a b => le_total (jsKey a) (jsKey b)⟩

instance : IsTrans Nat jsLE := ⟨fun _ _ _ h1 h2 => le_trans h1 h2⟩

/-- The sorted participant list computed by the constructor (line 44):
`[playerId, ...otherPlayerIds].sort()` under the JS default (string) order. -/
def mkSortedPlayerIds (playerId : Nat) (otherPlayerIds : List Nat) : List Nat :=
  List.insertionSort jsLE (playerId :: otherPlayerIds)

/-! ### Association-list helpers (JS object dictionaries) -/

/-- JS assignment `obj[k] = v` when `k` is already a key: rewrite the entry in
place. -/
def mapSet {κ β : Type} [DecidableEq κ] (m : List (κ × β)) (k : κ) (v : β) : List (κ × β) :=
  m.map (fun kv => if kv.1 = k then (k, v) else kv)

/-- JS assignment `obj[k] = v` in general: rewrite in place if the key exists,
otherwise append a fresh entry. -/
def objSet {κ β : Type} [DecidableEq κ] [BEq κ] (m : List (κ × β)) (k : κ) (v : β) :
    List (κ × β) :=
  if (List.lookup k m).isSome then mapSet m k v else m ++ [(k, v)]

/-- JS `delete obj[k]`. -/
def eraseKey {κ β : Type} [BEq κ] (m : List (κ × β)) (k : κ) : List (κ × β) :=
  m.filter (fun kv => kv.1 != k)

/-- Keys of a JS object dictionary. -/
def keysOf {κ β : Type} (m : List (κ × β)) : List κ := m.map Prod.fst

/-! ### JS Set of numbers, as used for ack bookkeeping -/

/-- JS `Set.prototype.add`: no-op when present, append otherwise (JS sets
iterate in insertion order). -/
def setAdd (l : List Int) (t : Int) : List Int := if t ∈ l then l else l ++ [t]

/-- JS `Set.prototype.delete`. -/
def setDelete (l : List Int) (t : Int) : List Int := l.filter (fun x => x != t)

/-! ### The tick-commands map (command-manager.ts lines 8-12) -/

/-- For each tick, the commands of each player:
`{ [tick: number]: { [playerId: number]: Command[] } }`. -/
abbrev TickCommandsMap := List (Int × List (Nat × List Command))

/-- Method `CommandManager.addCommandsForPlayer` (lines 154-166): discard an empty
payload; create the tick entry if missing; first write for a
(tick, playerId) pair wins, later writes for the same pair are discarded.
All call sites pass arrays, so `commands` is modelled as a list. -/
def addCommandsForPlayer (m : TickCommandsMap) (tick : Int) (playerId : Nat)
    (commands : List Command) : TickCommandsMap :=
  if commands.isEmpty then m
  else
    match List.lookup tick m with
    | none => m ++ [(tick, [(playerId, commands)])]
    | some tickCommands =>
      match List.lookup playerId tickCommands with
      | some _ => m
      | none => mapSet m tick (tickCommands ++ [(playerId, commands)])

/-- Method `CommandManager.getCommandsForPlayer` (lines 168-174). -/
def getCommandsForPlayer (m : TickCommandsMap) (tick : Int) (playerId : Nat) :
    List Command :=
  match List.lookup tick m with
  | none => []
  | some tickCommands => (List.lookup playerId tickCommands).getD []

/-- Method `CommandManager.getAllCommands` (lines 95-100): map the sorted player ids
over the tick entry, treating missing per-player entries as empty, and
flatten. -/
def getAllCommands (sortedPlayerIds : List Nat) (m : TickCommandsMap) (tick : Int) :
    List Command :=
  match List.lookup tick m with
  | some tickCommands =>
    (sortedPlayerIds.map (fun playerId => (List.lookup playerId tickCommands).getD [])).flatten
  | none => []

/-- Method `CommandManager.isTickReady` (lines 115-118): the tick entry exists and the
number of per-player entries equals the number of participants. -/
def isTickReady (sortedPlayerIds : List Nat) (m : TickCommandsMap) (tick : Int) : Bool :=
  match List.lookup tick m with
  | none => false
  | some tickCommands => tickCommands.length == sortedPlayerIds.length

/-- Lookup of the command list stored for a (tick, playerId) pair. -/
def lookup2 (m : TickCommandsMap) (tick : Int) (playerId : Nat) : Option (List Command) :=
  (List.lookup tick m).bind (fun tickCommands => List.lookup playerId tickCommands)

/-! ### Network messages (network.ts lines 9-16) -/

/-- A network message: sender id, commands per tick, acknowledged ticks.
`commands` is a JS object keyed by tick, modelled as an association list. -/
structure NetworkMessage where
  playerId : Nat
  commands : List (Int × List Command)
  acks : List Int

/-! ### Command manager state (command-manager.ts) -/

/-- The constructor arguments of `CommandManager` (lines 18-24), minus the
socket, which is wiring. -/
structure CommandManagerConstructor where
  playerId : Nat
  otherPlayerIds : List Nat
  commandDelay : Nat
  tick : Int

/-- The mutable state of a `CommandManager` instance.  The two ack
dictionaries are total functions defaulting to the empty set; the code only
ever touches ids in `otherPlayerIds`, for which the constructor creates
entries. -/
structure CommandManager where
  playerId : Nat
  otherPlayerIds : List Nat
  sortedPlayerIds : List Nat
  commandDelay : Nat
  commandQueue : List Command
  tickCommandsMap : TickCommandsMap
  acksToSend : Nat → List Int
  pendingAcks : Nat → List Int
  tick : Int

/-- Method `initTickCommandsMap` (lines 194-201): pre-populate ticks
`[0, commandDelay)` with a Noop command from every participant. -/
def initTickCommandsMap (sortedPlayerIds : List Nat) (commandDelay : Nat) :
    TickCommandsMap :=
  (List.range commandDelay).map
    (fun t : Nat =>
      ((t : Int), sortedPlayerIds.map (fun playerId => (playerId, [Command.noop playerId]))))

/-- The `CommandManager` constructor (lines 42-56). -/
def mkCommandManager (c : CommandManagerConstructor) : CommandManager :=
  { playerId := c.playerId
    otherPlayerIds := c.otherPlayerIds
    sortedPlayerIds := mkSortedPlayerIds c.playerId c.otherPlayerIds
    commandDelay := c.commandDelay
    commandQueue := []
    tickCommandsMap := initTickCommandsMap (mkSortedPlayerIds c.playerId c.otherPlayerIds) c.commandDelay
    acksToSend := fun _ => []
    pendingAcks := fun _ => []
    tick := c.tick }

/-- Method `enqueueCommand` (lines 107-109). -/
def CommandManager.enqueueCommand (s : CommandManager) (command : Command) : CommandManager :=
  { s with commandQueue := s.commandQueue ++ [command] }

/-- Method `scheduleEnqueuedCommands` (lines 179-188): store the queued commands (or
a synthesized Noop) under the given tick for the local player and clear the
queue. -/
def CommandManager.scheduleEnqueuedCommands (s : CommandManager) (tick : Int) : CommandManager :=
  { s with
    tickCommandsMap :=
      addCommandsForPlayer s.tickCommandsMap tick s.playerId
        (if s.commandQueue.isEmpty then [Command.noop s.playerId] else s.commandQueue)
    commandQueue := [] }

/-- The message built for one peer inside `sendCommands` (lines 131-147):
commands for the given tick plus commands for every tick still pending ack
from that peer, and the owed acks. -/
def CommandManager.buildMessage (s : CommandManager) (tick : Int) (tickCommands : List Command)
    (peer : Nat) : NetworkMessage :=
  { playerId := s.playerId
    commands :=
      (s.pendingAcks peer).foldl
        (fun acc tickPendingAck =>
          objSet acc tickPendingAck (getCommandsForPlayer s.tickCommandsMap tickPendingAck s.playerId))
        [(tick, tickCommands)]
    acks := s.acksToSend peer }

/-- One iteration of the `sendCommands` loop body for a single peer: build the
message, mark `tick` as pending ack from that peer, clear the owed-ack set. -/
def CommandManager.sendTo (s : CommandManager) (tick : Int) (tickCommands : List Command)
    (peer : Nat) : CommandManager × NetworkMessage :=
  ({ s with
      pendingAcks := Function.update s.pendingAcks peer (setAdd (s.pendingAcks peer) tick)
      acksToSend := Function.update s.acksToSend peer [] },
    CommandManager.buildMessage s tick tickCommands peer)

/-- The `sendCommands` loop over the remaining peers; returns the new state
and the messages handed to `socket.send`, tagged with their target. -/
def CommandManager.sendCommandsGo (s : CommandManager) (tick : Int) (tickCommands : List Command) :
    List Nat → CommandManager × List (Nat × NetworkMessage)
  | [] => (s, [])
  | peer :: rest =>
    let step := CommandManager.sendTo s tick tickCommands peer
    let next := CommandManager.sendCommandsGo step.1 tick tickCommands rest
    (next.1, (peer, step.2) :: next.2)

/-- Method `sendCommands` (lines 128-152). -/
def CommandManager.sendCommands (s : CommandManager) (tick : Int) :
    CommandManager × List (Nat × NetworkMessage) :=
  CommandManager.sendCommandsGo s tick (getCommandsForPlayer s.tickCommandsMap tick s.playerId)
    s.otherPlayerIds

/-- Method `nextTick` (lines 64-70): schedule the queued commands for
`tick + commandDelay`, send, prune the map entry at
`tick - commandDelay - 1`, increment the tick.  (In JS the pruned key may be
negative for the first ticks; such a key is never present, and `delete` on a
missing key is a no-op, which `eraseKey` reproduces on `Int` keys.) -/
def CommandManager.nextTick (s : CommandManager) :
    CommandManager × List (Nat × NetworkMessage) :=
  let s1 := CommandManager.scheduleEnqueuedCommands s (s.tick + s.commandDelay)
  let sent := CommandManager.sendCommands s1 (s.tick + s.commandDelay)
  ({ sent.1 with
      tickCommandsMap := eraseKey sent.1.tickCommandsMap (s.tick - s.commandDelay - 1)
      tick := s.tick + 1 },
    sent.2)

/-- One iteration of the `for ... of Object.entries(msg.commands)` loop in
`startReceivingCommands` (lines 208-214): merge the commands when the tick is
at or after the current tick, and record the tick as owed ack to the sender
in any case. -/
def CommandManager.receiveEntry (sender : Nat) (acc : CommandManager)
    (entry : Int × List Command) : CommandManager :=
  { acc with
    tickCommandsMap :=
      if acc.tick ≤ entry.1 then
        addCommandsForPlayer acc.tickCommandsMap entry.1 sender entry.2
      else acc.tickCommandsMap
    acksToSend :=
      Function.update acc.acksToSend sender (setAdd (acc.acksToSend sender) entry.1) }

/-- Processing of one inbound message by the receive task
(`startReceivingCommands`, lines 206-219): merge commands for ticks at or
after the current tick, record every carried tick as owed ack to the sender,
then drop every acked tick from the pending-ack set for the sender. -/
def CommandManager.receiveMessage (s : CommandManager) (msg : NetworkMessage) : CommandManager :=
  let s1 := msg.commands.foldl (CommandManager.receiveEntry msg.playerId) s
  { s1 with
    pendingAcks :=
      Function.update s1.pendingAcks msg.playerId
        (msg.acks.foldl setDelete (s1.pendingAcks msg.playerId)) }

/-- One asynchronous step of a manager instance: a `nextTick` call by the
game loop, the processing of one inbound message (from a known peer — the
network only ever delivers messages sent by registered participants), one
resend iteration of the `waitForTick` retry loop (line 81, which sends for
`tick + commandDelay - 1`), or a local `enqueueCommand`. -/
inductive CommandManager.Step (s : CommandManager) : CommandManager → Prop where
  | nextTick : CommandManager.Step s (CommandManager.nextTick s).1
  | receive (msg : NetworkMessage) (hm : msg.playerId ∈ s.otherPlayerIds) :
      CommandManager.Step s (CommandManager.receiveMessage s msg)
  | resend :
      CommandManager.Step s (CommandManager.sendCommands s (s.tick + s.commandDelay - 1)).1
  | enqueue (c : Command) : CommandManager.Step s (CommandManager.enqueueCommand s c)

/-- States reachable from a freshly constructed manager. -/
def Reachable (c : CommandManagerConstructor) (s : CommandManager) : Prop :=
  Relation.ReflTransGen CommandManager.Step (mkCommandManager c) s

/-- Well-formed wiring, as established by the app bootstrap and `Game`: distinct
participant ids, and the manager is constructed at tick 0 (game.ts line 62
passes the initial `_tick = 0`). -/
def WellFormed (c : CommandManagerConstructor) : Prop :=
  (c.playerId :: c.otherPlayerIds).Nodup ∧ c.tick = 0

/-- The immutable configuration of a manager (all `readonly` fields). -/
def CommandManager.config (s : CommandManager) :
    Nat × List Nat × List Nat × Nat :=
  (s.playerId, s.otherPlayerIds, s.sortedPlayerIds, s.commandDelay)

/-- The state invariant maintained by every manager operation: the
participant list is duplicate-free and contains the local and the remote
ids; the tick map has duplicate-free outer and inner keys, all inner keys
are participant ids, every key is at or above the pruning bound
`tick - commandDelay - 1`, and every stored command list is non-empty; the
ack sets are duplicate-free. -/
structure Inv (s : CommandManager) : Prop where
  sortedNodup : s.sortedPlayerIds.Nodup
  selfMem : s.playerId ∈ s.sortedPlayerIds
  othersMem : ∀ q ∈ s.otherPlayerIds, q ∈ s.sortedPlayerIds
  outerNodup : (keysOf s.tickCommandsMap).Nodup
  innerNodup : ∀ tk tc, List.lookup tk s.tickCommandsMap = some tc → (keysOf tc).Nodup
  innerSub :
    ∀ tk tc, List.lookup tk s.tickCommandsMap = some tc → ∀ q ∈ keysOf tc, q ∈ s.sortedPlayerIds
  acksNodup : ∀ q, (s.acksToSend q).Nodup
  pendingNodup : ∀ q, (s.pendingAcks q).Nodup
  tickBound : ∀ k ∈ keysOf s.tickCommandsMap, s.tick - s.commandDelay - 1 ≤ k
  valuesNonempty : ∀ tk q cs, lookup2 s.tickCommandsMap tk q = some cs → cs ≠ []

/-! ### Simulated transport (network.ts) -/

/-- Socket configuration (network.ts lines 18-26): optional min/max delay and
optional packet-loss probability. -/
structure SocketOptions where
  delayMin : Option Int
  delayMax : Option Int
  packetLoss : Option ℚ

/-- A created socket, bound to one player id (the receive generator and the
send closure are behaviour, modelled by `Inbox` and `Network.sendMessage`). -/
structure Socket where
  playerId : Nat
  options : SocketOptions

/-- The per-player inbound handoff created by `createSocket` (lines 97-110).
The generator `while (true) yield await new Promise(r => trigger = r)` sets
`trigger` each time the consumer awaits the next message; `newMessage`
resolves the promise when `trigger` is set and clears it, and does nothing
at all when `trigger` is null (the consumer is still busy with the previous
message).  `awaiting` models whether `trigger` is currently set, and
`delivered` collects the messages actually handed to the consumer. -/
structure Inbox where
  awaiting : Bool
  delivered : List NetworkMessage

/-- The inbox as first created: `let trigger = null` — the generator body has
not been pumped yet. -/
def Inbox.init : Inbox := { awaiting := false, delivered := [] }

/-- The consumer suspends on the generator, installing `trigger`. -/
def Inbox.consumerAwait (b : Inbox) : Inbox := { b with awaiting := true }

/-- Function `newMessage` (lines 105-110): deliver if the consumer is awaiting,
otherwise drop the message on the floor. -/
def Inbox.newMessage (b : Inbox) (message : NetworkMessage) : Inbox :=
  if b.awaiting then { awaiting := false, delivered := b.delivered ++ [message] }
  else b

/-- The network state (network.ts lines 80-82): registered sockets and
inboxes by player id. -/
structure Network where
  sockets : List (Nat × SocketOptions)
  inboxes : List (Nat × Inbox)

def emptyNetwork : Network := { sockets := [], inboxes := [] }

/-- Method `Network.createSocket` (lines 92-115): throws if a socket for the id
already exists, otherwise registers the socket and a fresh inbox and returns
the socket. -/
def createSocket (net : Network) (playerId : Nat) (options : SocketOptions) :
    Except String (Socket × Network) :=
  if (List.lookup playerId net.sockets).isSome then
    Except.error ("Socket for player " ++ Nat.repr playerId ++ " already exists")
  else
    Except.ok
      (⟨playerId, options⟩,
        { sockets := net.sockets ++ [(playerId, options)]
          inboxes := net.inboxes ++ [(playerId, Inbox.init)] })

/-- Rewrite one inbox in place. -/
def modifyInbox (l : List (Nat × Inbox)) (k : Nat) (f : Inbox → Inbox) :
    List (Nat × Inbox) :=
  l.map (fun kv => if kv.1 = k then (k, f kv.2) else kv)

/-- Method `Network.sendMessage` (lines 117-135): throws if the receiver socket does
not exist; after the artificial delay (not modelled — wall-clock time), rolls
packet loss against the sender and the receiver (the two nondeterministic
rolls are passed in as booleans); a lost packet is silently dropped,
otherwise the message is handed to the receiver inbox `newMessage`. -/
def sendMessage (net : Network) (senderPlayerId receiverPlayerId : Nat)
    (message : NetworkMessage) (senderLost receiverLost : Bool) : Except String Network :=
  match List.lookup receiverPlayerId net.sockets with
  | none =>
    Except.error ("Socket for player " ++ Nat.repr receiverPlayerId ++ " does not exist")
  | some _ =>
    if senderLost || receiverLost then Except.ok net
    else
      Except.ok
        { net with
          inboxes := modifyInbox net.inboxes receiverPlayerId (fun b => b.newMessage message) }

/-! ### Deterministic unit simulation (src/core/state/unit.ts) -/

/-- The per-tick input record (local-input-manager): an optional click point.
Click coordinates reach the unit as ordinary numbers and are converted to
decimals; both are modelled as reals. -/
structure Input where
  leftMouseClick : Option (ℝ × ℝ)

/-- The frame object handed to `Entity.update` (game.ts lines 18-22); the
`enqueueCommand` sink is modelled by `Unit.update` returning the list of
commands it enqueued. -/
structure Frame where
  tick : Int
  input : Input

/-- The state of a `Unit` (unit.ts): entity id, owning player, local-ownership
flag, colour, speed, size, position and optional movement target.  Decimal
coordinates are modelled as reals. -/
structure Unit where
  id : Nat
  playerId : Nat
  isMine : Bool
  color : String
  speed : ℝ
  size : Nat
  position : ℝ × ℝ
  target : Option (ℝ × ℝ)

/-- Distance between two points as computed in `Unit.update` line 61:
`Decimal.sqrt(dx.mul(dx).plus(dy.mul(dy)))`. -/
noncomputable def dist2 (p q : ℝ × ℝ) : ℝ :=
  Real.sqrt ((q.1 - p.1) * (q.1 - p.1) + (q.2 - p.2) * (q.2 - p.2))

/-- Method `Unit.update` (unit.ts lines 47-73).  If the local player clicked and the
unit is locally owned, a Move command is enqueued (returned in the second
component; it does not change the unit state).  If a target is set: compute
the displacement and its length; snap onto the target and clear it when the
distance is within one step (`distance <= speed`), otherwise advance by
`speed` along the normalized displacement. -/
noncomputable def Unit.update (u : Unit) (frame : Frame) : Unit × List Command :=
  let enqueued : List Command :=
    match frame.input.leftMouseClick with
    | some click => if u.isMine then [Command.move u.playerId u.id click] else []
    | none => []
  match u.target with
  | none => (u, enqueued)
  | some t =>
    let dx := t.1 - u.position.1
    let dy := t.2 - u.position.2
    let distance := Real.sqrt (dx * dx + dy * dy)
    if distance ≤ u.speed then
      ({ u with position := t, target := none }, enqueued)
    else
      ({ u with
          position :=
            (u.position.1 + u.speed * dx / distance, u.position.2 + u.speed * dy / distance) },
        enqueued)

/-- The state part of one `update` call (the game loop calls `update` once
per tick on every entity). -/
noncomputable def stepU (frame : Frame) (u : Unit) : Unit := (u.update frame).1

/-- Method `Unit.processCommand` (unit.ts lines 81-87): a Move command
unconditionally overwrites the target. -/
def Unit.processCommand (u : Unit) (command : Command) : Unit :=
  match command with
  | Command.move _ _ point => { u with target := some point }
  | Command.noop _ => u

/-! ### Concrete states used for evaluation -/

/-- A minimal well-formed two-player wiring: players 0 and 1, command delay
1, initial tick 0. -/
def cW : CommandManagerConstructor := ⟨0, [1], 1, 0⟩

/-- A manager wiring with players 2 and 10 and no command delay.  The JS
default sort puts 10 before 2 (string order), so this wiring exhibits the
difference between the implemented order and ascending numeric order. -/
def cCex : CommandManagerConstructor := ⟨2, [10], 0, 0⟩

/-- A message from player 10 carrying its commands for tick 0. -/
def msgCex : NetworkMessage := ⟨10, [(0, [Command.noop 10])], []⟩

/-- The manager of player 2 after receiving the message of player 10 for
tick 0 and then scheduling its own commands via `nextTick`: tick 0 has
commands from both participants. -/
def sCex : CommandManager :=
  (CommandManager.nextTick (CommandManager.receiveMessage (mkCommandManager cCex) msgCex)).1

/-- A two-player manager state with pending acks {5, 6} and owed acks {3, 7}
towards peer 1, used to evaluate the ack lifecycle. -/
def sAck : CommandManager :=
  { playerId := 0
    otherPlayerIds := [1]
    sortedPlayerIds := [0, 1]
    commandDelay := 2
    commandQueue := []
    tickCommandsMap := []
    acksToSend := fun q => if q = 1 then [3, 7] else []
    pendingAcks := fun q => if q = 1 then [5, 6] else []
    tick := 0 }

/-- A message from peer 1 carrying commands for tick 9 and acknowledging
tick 5. -/
def msgAck : NetworkMessage := ⟨1, [(9, [Command.noop 1])], [5]⟩

/-- The default transport options of the demo settings. -/
def optsW : SocketOptions := ⟨some 60, some 80, some 0⟩

/-- A network with a single registered socket for player 1. -/
def netW : Network := { sockets := [(1, optsW)], inboxes := [(1, Inbox.init)] }

/-- Two messages from player 0 to player 1, distinguishable by their acks. -/
def msgA : NetworkMessage := ⟨0, [], [1]⟩

def msgB : NetworkMessage := ⟨0, [], [2]⟩

/-- A network with sockets for players 0 and 1 where the receive loop of
player 1 has started and is awaiting its first message. -/
def netReady : Network :=
  { sockets := [(0, optsW), (1, optsW)]
    inboxes := [(0, Inbox.init), (1, Inbox.consumerAwait Inbox.init)] }

/-- State `netReady` after `msgA` was handed to player 1: the message was delivered
and the consumer is busy processing it (the generator has not been awaited
again, so the trigger is null). -/
def netAfterA : Network :=
  { sockets := [(0, optsW), (1, optsW)]
    inboxes := [(0, Inbox.init), (1, { awaiting := false, delivered := [msgA] })] }

/-- A unit sitting at the origin with speed 5 and target (3, 4), at distance
exactly 5: one update snaps it onto the target. -/
noncomputable def uSnap : Unit :=
  { id := 0, playerId := 0, isMine := false, color := "", speed := 5, size := 18
    position := ((0 : ℝ), (0 : ℝ)), target := some ((3 : ℝ), (4 : ℝ)) }

/-- A unit at the origin with speed 5 and target (0, 12), at distance 12:
it needs exactly 3 updates to arrive. -/
noncomputable def uFar : Unit :=
  { id := 0, playerId := 0, isMine := false, color := "", speed := 5, size := 18
    position := ((0 : ℝ), (0 : ℝ)), target := some ((0 : ℝ), (12 : ℝ)) }

/-- A frame with no local click. -/
def fNone : Frame := ⟨0, ⟨none⟩⟩

/-! ### Association-list lemmas -/

theorem lookup_append {κ β : Type} [BEq κ] (l₁ l₂ : List (κ × β)) (k : κ) :
    List.lookup k (l₁ ++ l₂) =
      match List.lookup k l₁ with
      | some v => some v
      | none => List.lookup k l₂ := by
  induction l₁ with
  | nil => simp
  | cons a l ih =>
    obtain ⟨a1, a2⟩ := a
    cases hb : k == a1 <;> simp [List.lookup_cons, hb, ih]

theorem lookup_eq_none_iff {κ β : Type} [BEq κ] [LawfulBEq κ] (m : List (κ × β)) (k : κ) :
    List.lookup k m = none ↔ k ∉ keysOf m := by
  induction m with
  | nil => simp [keysOf]
  | cons a l ih =>
    obtain ⟨a1, a2⟩ := a
    cases hb : k == a1
    · simp only [List.lookup_cons, hb]
      simp only [beq_eq_false_iff_ne] at hb
      simp [ih, hb, keysOf]
    · simp only [List.lookup_cons, hb]
      simp only [beq_iff_eq] at hb
      simp [hb, keysOf]

theorem lookup_isSome_iff {κ β : Type} [BEq κ] [LawfulBEq κ] (m : List (κ × β)) (k : κ) :
    (List.lookup k m).isSome = true ↔ k ∈ keysOf m := by
  rw [← Decidable.not_iff_not, ← lookup_eq_none_iff]
  cases List.lookup k m <;> simp

theorem mapSet_nil {κ β : Type} [DecidableEq κ] (k : κ) (v : β) :
    mapSet ([] : List (κ × β)) k v = [] := rfl

theorem mapSet_cons {κ β : Type} [DecidableEq κ] (a : κ × β) (l : List (κ × β)) (k : κ) (v : β) :
    mapSet (a :: l) k v = (if a.1 = k then (k, v) else a) :: mapSet l k v := rfl

theorem lookup_mapSet_self {κ β : Type} [DecidableEq κ] [BEq κ] [LawfulBEq κ]
    (m : List (κ × β)) (t : κ) (v : β) {tc : β} (h : List.lookup t m = some tc) :
    List.lookup t (mapSet m t v) = some v := by
  induction m with
  | nil => simp at h
  | cons a l ih =>
    obtain ⟨a1, a2⟩ := a
    by_cases ha : a1 = t
    · subst ha
      simp [mapSet_cons, List.lookup_cons]
    · have hb : (t == a1) = false := by simp [ne_comm.mp ha]
      simp only [List.lookup_cons, hb] at h
      simp only [mapSet_cons, ha, if_neg, if_false, List.lookup_cons, hb]
      exact ih h

theorem lookup_mapSet_ne {κ β : Type} [DecidableEq κ] [BEq κ] [LawfulBEq κ]
    (m : List (κ × β)) (t k : κ) (v : β) (hk : k ≠ t) :
    List.lookup k (mapSet m t v) = List.lookup k m := by
  induction m with
  | nil => simp [mapSet_nil]
  | cons a l ih =>
    obtain ⟨a1, a2⟩ := a
    by_cases ha : a1 = t
    · subst ha
      have hb : (k == a1) = false := by simp [hk]
      simp [mapSet_cons, List.lookup_cons, hb, ih]
    · by_cases hb : k = a1
      · subst hb
        simp [mapSet_cons, List.lookup_cons, ha]
      · have hb' : (k == a1) = false := by simp [hb]
        simp [mapSet_cons, List.lookup_cons, ha, hb', ih]

theorem keys_mapSet {κ β : Type} [DecidableEq κ] (m : List (κ × β)) (t : κ) (v : β) :
    keysOf (mapSet m t v) = keysOf m := by
  induction m with
  | nil => rfl
  | cons a l ih =>
    obtain ⟨a1, a2⟩ := a
    by_cases ha : a1 = t <;> simp [keysOf, mapSet_cons, ha] <;>
      simpa [keysOf] using ih

theorem keys_append {κ β : Type} (l₁ l₂ : List (κ × β)) :
    keysOf (l₁ ++ l₂) = keysOf l₁ ++ keysOf l₂ := by
  simp [keysOf]

theorem eraseKey_sublist {κ β : Type} [BEq κ] (m : List (κ × β)) (k : κ) :
    (eraseKey m k).Sublist m :=
  List.filter_sublist m

theorem keys_eraseKey_sublist {κ β : Type} [BEq κ] (m : List (κ × β)) (k : κ) :
    (keysOf (eraseKey m k)).Sublist (keysOf m) :=
  (eraseKey_sublist m k).map Prod.fst

theorem mem_keys_eraseKey {κ β : Type} [BEq κ] [LawfulBEq κ] (m : List (κ × β)) (k j : κ)
    (hj : j ∈ keysOf (eraseKey m k)) : j ∈ keysOf m ∧ j ≠ k := by
  obtain ⟨kv, hkv, rfl⟩ := List.mem_map.mp hj
  have h1 := List.mem_filter.mp hkv
  refine ⟨List.mem_map.mpr ⟨kv, h1.1, rfl⟩, ?_⟩
  simpa [bne_iff_ne] using h1.2

theorem lookup_eraseKey_ne {κ β : Type} [BEq κ] [LawfulBEq κ] (m : List (κ × β)) (k j : κ)
    (hj : j ≠ k) : List.lookup j (eraseKey m k) = List.lookup j m := by
  induction m with
  | nil => rfl
  | cons a l ih =>
    obtain ⟨a1, a2⟩ := a
    by_cases ha : a1 = k
    · subst ha
      have hb : (j == a1) = false := by simp [hj]
      simp [eraseKey, List.lookup_cons, hb, ih]
      simpa [eraseKey] using ih
    · cases hb : j == a1 <;>
        simp [eraseKey, ha, List.lookup_cons, hb] <;> simpa [eraseKey] using ih

/-! ### Lemmas about addCommandsForPlayer -/

theorem isEmpty_false_of_ne_nil {α : Type} {l : List α} (h : l ≠ []) : l.isEmpty = false := by
  cases l with
  | nil => exact absurd rfl h
  | cons a l => rfl

theorem addCommandsForPlayer_nil (m : TickCommandsMap) (tick : Int) (playerId : Nat) :
    addCommandsForPlayer m tick playerId [] = m := rfl

theorem addCFP_new {m : TickCommandsMap} {t : Int} {p : Nat} {cs : List Command}
    (h0 : cs ≠ []) (h1 : List.lookup t m = none) :
    addCommandsForPlayer m t p cs = m ++ [(t, [(p, cs)])] := by
  unfold addCommandsForPlayer
  rw [isEmpty_false_of_ne_nil h0, h1]
  simp

theorem addCFP_dup {m : TickCommandsMap} {t : Int} {p : Nat} {cs : List Command}
    {tc : List (Nat × List Command)} {v : List Command}
    (h0 : cs ≠ []) (h1 : List.lookup t m = some tc) (h2 : List.lookup p tc = some v) :
    addCommandsForPlayer m t p cs = m := by
  unfold addCommandsForPlayer
  rw [isEmpty_false_of_ne_nil h0, h1]
  simp [h2]

theorem addCFP_insert {m : TickCommandsMap} {t : Int} {p : Nat} {cs : List Command}
    {tc : List (Nat × List Command)}
    (h0 : cs ≠ []) (h1 : List.lookup t m = some tc) (h2 : List.lookup p tc = none) :
    addCommandsForPlayer m t p cs = mapSet m t (tc ++ [(p, cs)]) := by
  unfold addCommandsForPlayer
  rw [isEmpty_false_of_ne_nil h0, h1]
  simp [h2]

theorem addCommandsForPlayer_keys (m : TickCommandsMap) (t : Int) (p : Nat)
    (cs : List Command) (j : Int) (hj : j ∈ keysOf (addCommandsForPlayer m t p cs)) :
    j ∈ keysOf m ∨ j = t := by
  by_cases h0 : cs = []
  · subst h0
    rw [addCommandsForPlayer_nil] at hj
    exact Or.inl hj
  · rcases h1 : List.lookup t m with _ | tc
    · rw [addCFP_new h0 h1, keys_append] at hj
      rcases List.mem_append.mp hj with h | h
      · exact Or.inl h
      · right
        simpa [keysOf] using h
    · rcases h2 : List.lookup p tc with _ | v
      · rw [addCFP_insert h0 h1 h2, keys_mapSet] at hj
        exact Or.inl hj
      · rw [addCFP_dup h0 h1 h2] at hj
        exact Or.inl hj

theorem addCommandsForPlayer_keys_nodup (m : TickCommandsMap) (t : Int) (p : Nat)
    (cs : List Command) (h : (keysOf m).Nodup) :
    (keysOf (addCommandsForPlayer m t p cs)).Nodup := by
  by_cases h0 : cs = []
  · subst h0
    rw [addCommandsForPlayer_nil]
    exact h
  · rcases h1 : List.lookup t m with _ | tc
    · rw [addCFP_new h0 h1, keys_append]
      have ht : t ∉ keysOf m := (lookup_eq_none_iff m t).mp h1
      simp only [keysOf, List.nodup_append, List.map_cons, List.map_nil]
      refine ⟨h, List.nodup_singleton t, ?_⟩
      intro a ha hb
      simp only [List.mem_singleton] at hb
      subst hb
      exact ht ha
    · rcases h2 : List.lookup p tc with _ | v
      · rw [addCFP_insert h0 h1 h2, keys_mapSet]
        exact h
      · rw [addCFP_dup h0 h1 h2]
        exact h

theorem addCommandsForPlayer_lookup (m : TickCommandsMap) (t : Int) (p : Nat)
    (cs : List Command) (tk : Int) (tc' : List (Nat × List Command))
    (h : List.lookup tk (addCommandsForPlayer m t p cs) = some tc') :
    List.lookup tk m = some tc' ∨
      (tk = t ∧ cs ≠ [] ∧
        ((List.lookup t m = none ∧ tc' = [(p, cs)]) ∨
          (∃ tc, List.lookup t m = some tc ∧ List.lookup p tc = none ∧
            tc' = tc ++ [(p, cs)]))) := by
  by_cases h0 : cs = []
  · subst h0
    rw [addCommandsForPlayer_nil] at h
    exact Or.inl h
  · rcases h1 : List.lookup t m with _ | tc
    · rw [addCFP_new h0 h1, lookup_append] at h
      rcases h2 : List.lookup tk m with _ | v
      · rw [h2] at h
        by_cases ht : tk = t
        · subst ht
          simp only [List.lookup_cons, beq_self_eq_true] at h
          exact Or.inr ⟨rfl, h0, Or.inl ⟨rfl, (Option.some_inj.mp h).symm⟩⟩
        · have hb : (tk == t) = false := by simp [ht]
          simp [List.lookup_cons, hb] at h
      · rw [h2] at h
        simp only [Option.some_inj] at h
        exact Or.inl (by rw [h])
    · rcases h2 : List.lookup p tc with _ | v
      · rw [addCFP_insert h0 h1 h2] at h
        by_cases ht : tk = t
        · subst ht
          rw [lookup_mapSet_self m tk _ h1] at h
          exact Or.inr ⟨rfl, h0, Or.inr ⟨tc, rfl, h2, (Option.some_inj.mp h).symm⟩⟩
        · rw [lookup_mapSet_ne m t tk _ ht] at h
          exact Or.inl h
      · rw [addCFP_dup h0 h1 h2] at h
        exact Or.inl h

theorem lookup_mem {κ β : Type} [BEq κ] [LawfulBEq κ] (l : List (κ × β)) (k : κ) (v : β)
    (h : List.lookup k l = some v) : (k, v) ∈ l := by
  induction l with
  | nil => simp at h
  | cons a tl ih =>
    obtain ⟨a1, a2⟩ := a
    cases hb : k == a1
    · simp only [List.lookup_cons, hb] at h
      exact List.mem_cons_of_mem _ (ih h)
    · simp only [List.lookup_cons, hb] at h
      have hk : k = a1 := by simpa using hb
      subst hk
      have hv : a2 = v := Option.some_inj.mp h
      subst hv
      exact List.mem_cons_self _ _

theorem lookup_append_singleton {κ β : Type} [BEq κ] [LawfulBEq κ] (l : List (κ × β))
    (p k : κ) (c v : β) (h : List.lookup k (l ++ [(p, c)]) = some v) :
    List.lookup k l = some v ∨ (k = p ∧ v = c) := by
  rw [lookup_append] at h
  rcases h1 : List.lookup k l with _ | w
  · rw [h1] at h
    by_cases hk : k = p
    · subst hk
      simp only [List.lookup_cons, beq_self_eq_true] at h
      exact Or.inr ⟨rfl, (Option.some_inj.mp h).symm⟩
    · have hb : (k == p) = false := by simp [hk]
      simp [List.lookup_cons, hb] at h
  · rw [h1] at h
    simp only [Option.some_inj] at h
    exact Or.inl (by rw [h])

theorem lookup_eraseKey_self {κ β : Type} [BEq κ] [LawfulBEq κ] (m : List (κ × β)) (k : κ) :
    List.lookup k (eraseKey m k) = none := by
  rw [lookup_eq_none_iff]
  intro hmem
  exact (mem_keys_eraseKey m k k hmem).2 rfl

theorem setAdd_nodup (l : List Int) (t : Int) (h : l.Nodup) : (setAdd l t).Nodup := by
  unfold setAdd
  by_cases ht : t ∈ l
  · simpa [ht]
  · simp only [ht, if_false]
    simp [List.nodup_append, h, ht]

theorem setAdd_mem (l : List Int) (t u : Int) (h : u ∈ l) : u ∈ setAdd l t := by
  unfold setAdd
  by_cases ht : t ∈ l <;> simp [ht, h]

theorem setAdd_mem_self (l : List Int) (t : Int) : t ∈ setAdd l t := by
  unfold setAdd
  by_cases ht : t ∈ l <;> simp [ht]

theorem setDelete_nodup (l : List Int) (t : Int) (h : l.Nodup) : (setDelete l t).Nodup :=
  h.filter _

theorem setDelete_not_mem (l : List Int) (t : Int) : t ∉ setDelete l t := by
  intro h
  have := List.mem_filter.mp h
  simp at this

theorem setDelete_not_mem_of (l : List Int) (t u : Int) (h : t ∉ l) : t ∉ setDelete l u := by
  intro hc
  exact h (List.mem_filter.mp hc).1

theorem foldl_setDelete_nodup (acks : List Int) :
    ∀ l : List Int, l.Nodup → (acks.foldl setDelete l).Nodup := by
  induction acks with
  | nil => intro l h; exact h
  | cons a tl ih => intro l h; exact ih _ (setDelete_nodup l a h)

theorem foldl_setDelete_not_mem (acks : List Int) (t : Int) :
    ∀ l : List Int, t ∈ acks ∨ t ∉ l → t ∉ acks.foldl setDelete l := by
  induction acks with
  | nil =>
    intro l h
    rcases h with h | h
    · simp at h
    · exact h
  | cons a tl ih =>
    intro l h
    by_cases ha : t = a
    · subst ha
      exact ih _ (Or.inr (setDelete_not_mem l t))
    · rcases h with h | h
      · rcases List.mem_cons.mp h with h | h
        · exact absurd h ha
        · exact ih _ (Or.inl h)
      · exact ih _ (Or.inr (setDelete_not_mem_of l t a h))

/-! ### Claim C5: idempotent storage -/

/-- Claim C5: storing commands under a (tick, playerId) pair is idempotent
after first acceptance.  Once a non-empty payload `cs` has been stored for
the pair, delivering any further payload for the same pair — in particular
the identical payload of a redundant retransmission — leaves the whole map
(hence the stored command list) exactly as it was after the first
acceptance. -/
theorem addCommands_idempotent (m : TickCommandsMap) (t : Int) (p : Nat)
    (cs cs' : List Command) (hcs : cs ≠ []) :
    addCommandsForPlayer (addCommandsForPlayer m t p cs) t p cs'
      = addCommandsForPlayer m t p cs := by
  rcases h1 : List.lookup t m with _ | tc
  · have hA : addCommandsForPlayer m t p cs = m ++ [(t, [(p, cs)])] := addCFP_new hcs h1
    have hL : List.lookup t (m ++ [(t, [(p, cs)])]) = some [(p, cs)] := by
      rw [lookup_append, h1]
      simp [List.lookup_cons]
    have hP : List.lookup p [(p, cs)] = some cs := by simp [List.lookup_cons]
    by_cases h0 : cs' = []
    · subst h0
      rw [hA, addCommandsForPlayer_nil]
    · rw [hA, addCFP_dup h0 hL hP]
  · rcases h2 : List.lookup p tc with _ | v
    · have hA : addCommandsForPlayer m t p cs = mapSet m t (tc ++ [(p, cs)]) :=
        addCFP_insert hcs h1 h2
      have hL : List.lookup t (mapSet m t (tc ++ [(p, cs)])) = some (tc ++ [(p, cs)]) :=
        lookup_mapSet_self m t _ h1
      have hP : List.lookup p (tc ++ [(p, cs)]) = some cs := by
        rw [lookup_append, h2]
        simp [List.lookup_cons]
      by_cases h0 : cs' = []
      · subst h0
        rw [hA, addCommandsForPlayer_nil]
      · rw [hA, addCFP_dup h0 hL hP]
    · have hA : addCommandsForPlayer m t p cs = m := addCFP_dup hcs h1 h2
      by_cases h0 : cs' = []
      · subst h0
        rw [hA, addCommandsForPlayer_nil]
      · rw [hA, addCFP_dup h0 h1 h2]

/-- Witness for C5: a concrete double delivery evaluated on the empty map. -/
theorem addCommands_idempotent_witness :
    addCommandsForPlayer (addCommandsForPlayer [] 0 1 [Command.noop 1]) 0 1 [Command.noop 1]
      = addCommandsForPlayer [] 0 1 [Command.noop 1] :=
  addCommands_idempotent [] 0 1 [Command.noop 1] [Command.noop 1] (by simp)

/-! ### Field preservation through the send and receive loops -/

theorem sendCommandsGo_fields (tick : Int) (tcs : List Command) :
    ∀ (l : List Nat) (s : CommandManager),
      (CommandManager.sendCommandsGo s tick tcs l).1.playerId = s.playerId ∧
      (CommandManager.sendCommandsGo s tick tcs l).1.otherPlayerIds = s.otherPlayerIds ∧
      (CommandManager.sendCommandsGo s tick tcs l).1.sortedPlayerIds = s.sortedPlayerIds ∧
      (CommandManager.sendCommandsGo s tick tcs l).1.commandDelay = s.commandDelay ∧
      (CommandManager.sendCommandsGo s tick tcs l).1.commandQueue = s.commandQueue ∧
      (CommandManager.sendCommandsGo s tick tcs l).1.tickCommandsMap = s.tickCommandsMap ∧
      (CommandManager.sendCommandsGo s tick tcs l).1.tick = s.tick := by
  intro l
  induction l with
  | nil => intro s; exact ⟨rfl, rfl, rfl, rfl, rfl, rfl, rfl⟩
  | cons p rest ih =>
    intro s
    simpa only [CommandManager.sendCommandsGo] using ih (CommandManager.sendTo s tick tcs p).1

theorem sendCommandsGo_acksNodup (tick : Int) (tcs : List Command) :
    ∀ (l : List Nat) (s : CommandManager),
      (∀ q, (s.acksToSend q).Nodup) → (∀ q, (s.pendingAcks q).Nodup) →
      (∀ q, ((CommandManager.sendCommandsGo s tick tcs l).1.acksToSend q).Nodup) ∧
      (∀ q, ((CommandManager.sendCommandsGo s tick tcs l).1.pendingAcks q).Nodup) := by
  intro l
  induction l with
  | nil => intro s h1 h2; exact ⟨h1, h2⟩
  | cons p rest ih =>
    intro s h1 h2
    simp only [CommandManager.sendCommandsGo]
    apply ih
    · intro q
      by_cases hq : q = p
      · subst hq
        simp [CommandManager.sendTo, Function.update_same]
      · simp [CommandManager.sendTo, Function.update_noteq hq]
        exact h1 q
    · intro q
      by_cases hq : q = p
      · subst hq
        simp only [CommandManager.sendTo, Function.update_same]
        exact setAdd_nodup _ _ (h2 q)
      · simp [CommandManager.sendTo, Function.update_noteq hq]
        exact h2 q

/-- The `acksToSend` entry of a peer after the send loop: cleared when the
peer was in the loop, untouched otherwise. -/
theorem sendCommandsGo_acksToSend (tick : Int) (tcs : List Command) (P : Nat) :
    ∀ (l : List Nat) (s : CommandManager),
      (CommandManager.sendCommandsGo s tick tcs l).1.acksToSend P
        = if P ∈ l then [] else s.acksToSend P := by
  intro l
  induction l with
  | nil => intro s; simp [CommandManager.sendCommandsGo]
  | cons p rest ih =>
    intro s
    simp only [CommandManager.sendCommandsGo]
    rw [ih]
    by_cases hp : P ∈ rest
    · simp [hp]
    · by_cases hP : P = p
      · subst hP
        simp [hp, CommandManager.sendTo, Function.update_same]
      · simp [hp, hP, CommandManager.sendTo, Function.update_noteq hP]

/-- Result of `buildMessage` only reads the sender id, the map, and the two ack entries
of the targeted peer. -/
theorem buildMessage_congr (s1 s : CommandManager) (tick : Int) (tcs : List Command)
    (P : Nat) (h1 : s1.playerId = s.playerId)
    (h2 : s1.tickCommandsMap = s.tickCommandsMap)
    (h3 : s1.pendingAcks P = s.pendingAcks P) (h4 : s1.acksToSend P = s.acksToSend P) :
    CommandManager.buildMessage s1 tick tcs P = CommandManager.buildMessage s tick tcs P := by
  unfold CommandManager.buildMessage
  rw [h1, h2, h3, h4]

/-- The message addressed to `P` by the send loop is built from the state at
the first occurrence of `P`, whose ack entries for `P` are untouched. -/
theorem sendCommandsGo_lookup (tick : Int) (tcs : List Command) (P : Nat) :
    ∀ (l : List Nat) (s : CommandManager), P ∈ l →
      List.lookup P (CommandManager.sendCommandsGo s tick tcs l).2
        = some (CommandManager.buildMessage s tick tcs P) := by
  intro l
  induction l with
  | nil => intro s h; simp at h
  | cons p rest ih =>
    intro s hP
    simp only [CommandManager.sendCommandsGo]
    by_cases hp : P = p
    · subst hp
      simp [List.lookup_cons]
      rfl
    · have hb : (P == p) = false := by simp [hp]
      simp only [List.lookup_cons, hb]
      have hmem : P ∈ rest := by
        rcases List.mem_cons.mp hP with h | h
        · exact absurd h hp
        · exact h
      rw [ih _ hmem]
      congr 1
      apply buildMessage_congr
      · rfl
      · rfl
      · simp [CommandManager.sendTo, Function.update_noteq hp]
      · simp [CommandManager.sendTo, Function.update_noteq hp]

theorem receiveFold_fields (sender : Nat) :
    ∀ (entries : List (Int × List Command)) (acc : CommandManager),
      (entries.foldl (CommandManager.receiveEntry sender) acc).playerId = acc.playerId ∧
      (entries.foldl (CommandManager.receiveEntry sender) acc).otherPlayerIds
        = acc.otherPlayerIds ∧
      (entries.foldl (CommandManager.receiveEntry sender) acc).sortedPlayerIds
        = acc.sortedPlayerIds ∧
      (entries.foldl (CommandManager.receiveEntry sender) acc).commandDelay
        = acc.commandDelay ∧
      (entries.foldl (CommandManager.receiveEntry sender) acc).commandQueue
        = acc.commandQueue ∧
      (entries.foldl (CommandManager.receiveEntry sender) acc).pendingAcks = acc.pendingAcks ∧
      (entries.foldl (CommandManager.receiveEntry sender) acc).tick = acc.tick := by
  intro entries
  induction entries with
  | nil => intro acc; exact ⟨rfl, rfl, rfl, rfl, rfl, rfl, rfl⟩
  | cons e tl ih =>
    intro acc
    simpa only [List.foldl_cons] using ih (CommandManager.receiveEntry sender acc e)

/-! ### Invariant preservation -/

theorem nodup_append_singleton {α : Type} {l : List α} {a : α} (h : l.Nodup) (ha : a ∉ l) :
    (l ++ [a]).Nodup := by
  simp only [List.nodup_append, List.nodup_singleton]
  refine ⟨h, trivial, ?_⟩
  intro x hx hxa
  simp only [List.mem_singleton] at hxa
  subst hxa
  exact ha hx

theorem Inv_setAcks (s : CommandManager) (hInv : Inv s) (a b : Nat → List Int)
    (ha : ∀ q, (a q).Nodup) (hb : ∀ q, (b q).Nodup) :
    Inv { s with acksToSend := a, pendingAcks := b } :=
  ⟨hInv.sortedNodup, hInv.selfMem, hInv.othersMem, hInv.outerNodup, hInv.innerNodup,
    hInv.innerSub, ha, hb, hInv.tickBound, hInv.valuesNonempty⟩

theorem Inv_enqueue (s : CommandManager) (hInv : Inv s) (queue : List Command) :
    Inv { s with commandQueue := queue } :=
  ⟨hInv.sortedNodup, hInv.selfMem, hInv.othersMem, hInv.outerNodup, hInv.innerNodup,
    hInv.innerSub, hInv.acksNodup, hInv.pendingNodup, hInv.tickBound, hInv.valuesNonempty⟩

theorem Inv_addCommands (s : CommandManager) (hInv : Inv s) (t : Int) (p : Nat)
    (cs : List Command) (queue : List Command) (hp : p ∈ s.sortedPlayerIds)
    (hb : s.tick - (s.commandDelay : Int) - 1 ≤ t) :
    Inv { s with
          tickCommandsMap := addCommandsForPlayer s.tickCommandsMap t p cs
          commandQueue := queue } := by
  refine ⟨hInv.sortedNodup, hInv.selfMem, hInv.othersMem, ?_, ?_, ?_, hInv.acksNodup,
    hInv.pendingNodup, ?_, ?_⟩
  · exact addCommandsForPlayer_keys_nodup _ _ _ _ hInv.outerNodup
  · intro tk tc h
    rcases addCommandsForPlayer_lookup _ _ _ _ _ _ h with hold | ⟨hteq, hcs, hcase⟩
    · exact hInv.innerNodup tk tc hold
    · rcases hcase with ⟨hnone, rfl⟩ | ⟨tc0, hsome, hnone2, rfl⟩
      · simp [keysOf]
      · rw [keys_append]
        have hpn : p ∉ keysOf tc0 := (lookup_eq_none_iff tc0 p).mp hnone2
        have : keysOf [(p, cs)] = [p] := rfl
        rw [this]
        exact nodup_append_singleton (hInv.innerNodup _ _ hsome) hpn
  · intro tk tc h q hq
    rcases addCommandsForPlayer_lookup _ _ _ _ _ _ h with hold | ⟨hteq, hcs, hcase⟩
    · exact hInv.innerSub tk tc hold q hq
    · rcases hcase with ⟨hnone, rfl⟩ | ⟨tc0, hsome, hnone2, rfl⟩
      · simp [keysOf] at hq
        subst hq
        exact hp
      · rw [keys_append] at hq
        rcases List.mem_append.mp hq with h' | h'
        · exact hInv.innerSub _ _ hsome q h'
        · simp [keysOf] at h'
          subst h'
          exact hp
  · intro k hk
    rcases addCommandsForPlayer_keys _ _ _ _ _ hk with h' | rfl
    · exact hInv.tickBound k h'
    · exact hb
  · intro tk q cs' h
    unfold lookup2 at h
    rcases hL : List.lookup tk (addCommandsForPlayer s.tickCommandsMap t p cs) with _ | tc
    · rw [hL] at h
      simp at h
    · rw [hL] at h
      simp only [Option.some_bind] at h
      rcases addCommandsForPlayer_lookup _ _ _ _ _ _ hL with hold | ⟨hteq, hcs, hcase⟩
      · exact hInv.valuesNonempty tk q cs' (by unfold lookup2; rw [hold]; simpa using h)
      · rcases hcase with ⟨hnone, rfl⟩ | ⟨tc0, hsome, hnone2, rfl⟩
        · by_cases hqp : q = p
          · subst hqp
            simp only [List.lookup_cons, beq_self_eq_true] at h
            have : cs = cs' := Option.some_inj.mp h
            subst this
            exact hcs
          · have hb2 : (q == p) = false := by simp [hqp]
            simp [List.lookup_cons, hb2] at h
        · rcases lookup_append_singleton tc0 p q cs cs' h with h' | ⟨hq, hv⟩
          · subst hteq
            exact hInv.valuesNonempty tk q cs'
              (by unfold lookup2; rw [hsome]; simpa using h')
          · subst hv
            exact hcs

theorem Inv_sendTo (s : CommandManager) (hInv : Inv s) (tick : Int) (tcs : List Command)
    (p : Nat) : Inv (CommandManager.sendTo s tick tcs p).1 := by
  apply Inv_setAcks s hInv
  · intro q
    by_cases hq : q = p
    · subst hq
      simp [Function.update_same]
    · rw [Function.update_noteq hq]
      exact hInv.acksNodup q
  · intro q
    by_cases hq : q = p
    · subst hq
      rw [Function.update_same]
      exact setAdd_nodup _ _ (hInv.pendingNodup q)
    · rw [Function.update_noteq hq]
      exact hInv.pendingNodup q

theorem Inv_sendCommandsGo (tick : Int) (tcs : List Command) :
    ∀ (l : List Nat) (s : CommandManager), Inv s →
      Inv (CommandManager.sendCommandsGo s tick tcs l).1 := by
  intro l
  induction l with
  | nil => intro s h; exact h
  | cons p rest ih =>
    intro s h
    simp only [CommandManager.sendCommandsGo]
    exact ih _ (Inv_sendTo s h tick tcs p)

theorem Inv_receiveEntry (sender : Nat) (acc : CommandManager)
    (entry : Int × List Command) (hInv : Inv acc) (hs : sender ∈ acc.sortedPlayerIds) :
    Inv (CommandManager.receiveEntry sender acc entry) := by
  have hacks : ∀ q,
      ((Function.update acc.acksToSend sender (setAdd (acc.acksToSend sender) entry.1)) q).Nodup := by
    intro q
    by_cases hq : q = sender
    · subst hq
      rw [Function.update_same]
      exact setAdd_nodup _ _ (hInv.acksNodup q)
    · rw [Function.update_noteq hq]
      exact hInv.acksNodup q
  by_cases hguard : acc.tick ≤ entry.1
  · have h1 : Inv { acc with
        tickCommandsMap := addCommandsForPlayer acc.tickCommandsMap entry.1 sender entry.2
        commandQueue := acc.commandQueue } :=
      Inv_addCommands acc hInv entry.1 sender entry.2 acc.commandQueue hs
        (by show acc.tick - (acc.commandDelay : Int) - 1 ≤ entry.1; omega)
    have h2 := Inv_setAcks _ h1
      (Function.update acc.acksToSend sender (setAdd (acc.acksToSend sender) entry.1))
      acc.pendingAcks hacks hInv.pendingNodup
    unfold CommandManager.receiveEntry
    rw [if_pos hguard]
    exact h2
  · have h2 := Inv_setAcks acc hInv
      (Function.update acc.acksToSend sender (setAdd (acc.acksToSend sender) entry.1))
      acc.pendingAcks hacks hInv.pendingNodup
    unfold CommandManager.receiveEntry
    rw [if_neg hguard]
    exact h2

theorem Inv_receiveFold (sender : Nat) :
    ∀ (entries : List (Int × List Command)) (acc : CommandManager), Inv acc →
      sender ∈ acc.sortedPlayerIds →
      Inv (entries.foldl (CommandManager.receiveEntry sender) acc) := by
  intro entries
  induction entries with
  | nil => intro acc h _; exact h
  | cons e tl ih =>
    intro acc h hs
    simp only [List.foldl_cons]
    exact ih _ (Inv_receiveEntry sender acc e h hs) hs

theorem Inv_receiveMessage (s : CommandManager) (msg : NetworkMessage) (hInv : Inv s)
    (hs : msg.playerId ∈ s.sortedPlayerIds) :
    Inv (CommandManager.receiveMessage s msg) := by
  have h1 : Inv (msg.commands.foldl (CommandManager.receiveEntry msg.playerId) s) :=
    Inv_receiveFold msg.playerId msg.commands s hInv hs
  unfold CommandManager.receiveMessage
  apply Inv_setAcks _ h1
  · exact h1.acksNodup
  · intro q
    by_cases hq : q = msg.playerId
    · subst hq
      rw [Function.update_same]
      exact foldl_setDelete_nodup _ _ (h1.pendingNodup msg.playerId)
    · rw [Function.update_noteq hq]
      exact h1.pendingNodup q

theorem Inv_nextTick (s : CommandManager) (hInv : Inv s) :
    Inv (CommandManager.nextTick s).1 := by
  have h1 : Inv (CommandManager.scheduleEnqueuedCommands s (s.tick + s.commandDelay)) :=
    Inv_addCommands s hInv (s.tick + s.commandDelay) s.playerId _ [] hInv.selfMem
      (by show s.tick - (s.commandDelay : Int) - 1 ≤ s.tick + s.commandDelay; omega)
  have h2 : Inv (CommandManager.sendCommands
      (CommandManager.scheduleEnqueuedCommands s (s.tick + s.commandDelay))
      (s.tick + s.commandDelay)).1 :=
    Inv_sendCommandsGo _ _ _ _ h1
  have hf := sendCommandsGo_fields (s.tick + s.commandDelay)
    (getCommandsForPlayer
      (CommandManager.scheduleEnqueuedCommands s (s.tick + s.commandDelay)).tickCommandsMap
      (s.tick + s.commandDelay)
      (CommandManager.scheduleEnqueuedCommands s (s.tick + s.commandDelay)).playerId)
    (CommandManager.scheduleEnqueuedCommands s (s.tick + s.commandDelay)).otherPlayerIds
    (CommandManager.scheduleEnqueuedCommands s (s.tick + s.commandDelay))
  set sent := (CommandManager.sendCommands
      (CommandManager.scheduleEnqueuedCommands s (s.tick + s.commandDelay))
      (s.tick + s.commandDelay)).1 with hsent
  have htick : sent.tick = s.tick := hf.2.2.2.2.2.2
  have hdelay : sent.commandDelay = s.commandDelay := hf.2.2.2.1
  show Inv { sent with
    tickCommandsMap := eraseKey sent.tickCommandsMap (s.tick - s.commandDelay - 1)
    tick := s.tick + 1 }
  refine ⟨h2.sortedNodup, h2.selfMem, h2.othersMem, ?_, ?_, ?_, h2.acksNodup,
    h2.pendingNodup, ?_, ?_⟩
  · exact (keys_eraseKey_sublist _ _).nodup h2.outerNodup
  · intro tk tc h
    by_cases htk : tk = s.tick - s.commandDelay - 1
    · subst htk
      rw [lookup_eraseKey_self] at h
      exact absurd h (by simp)
    · rw [lookup_eraseKey_ne _ _ _ htk] at h
      exact h2.innerNodup tk tc h
  · intro tk tc h q hq
    by_cases htk : tk = s.tick - s.commandDelay - 1
    · subst htk
      rw [lookup_eraseKey_self] at h
      exact absurd h (by simp)
    · rw [lookup_eraseKey_ne _ _ _ htk] at h
      exact h2.innerSub tk tc h q hq
  · intro k hk
    obtain ⟨hmem, hne⟩ := mem_keys_eraseKey _ _ _ hk
    have hb := h2.tickBound k hmem
    rw [htick, hdelay] at hb
    show s.tick + 1 - (sent.commandDelay : Int) - 1 ≤ k
    rw [hdelay]
    omega
  · intro tk q cs h
    unfold lookup2 at h
    by_cases htk : tk = s.tick - s.commandDelay - 1
    · subst htk
      rw [lookup_eraseKey_self] at h
      simp at h
    · rw [lookup_eraseKey_ne _ _ _ htk] at h
      exact h2.valuesNonempty tk q cs h

theorem keysOf_map_pair {κ κ' β : Type} (l : List κ) (f : κ → κ') (g : κ → β) :
    keysOf (l.map (fun k => (f k, g k))) = l.map f := by
  simp only [keysOf, List.map_map]
  rfl

theorem init_lookup (ids : List Nat) (d : Nat) (tk : Int) (tc : List (Nat × List Command))
    (h : List.lookup tk (initTickCommandsMap ids d) = some tc) :
    tc = ids.map (fun pid => (pid, [Command.noop pid])) ∧ 0 ≤ tk := by
  have hm := lookup_mem _ _ _ h
  unfold initTickCommandsMap at hm
  obtain ⟨t, ht, he⟩ := List.mem_map.mp hm
  simp only [Prod.mk.injEq] at he
  obtain ⟨h1, h2⟩ := he
  refine ⟨h2.symm, ?_⟩
  rw [← h1]
  exact Int.natCast_nonneg t

theorem keysOf_init (ids : List Nat) (d : Nat) :
    keysOf (initTickCommandsMap ids d) = (List.range d).map (fun t : Nat => (t : Int)) := by
  unfold initTickCommandsMap
  exact keysOf_map_pair _ _ _

theorem Inv_init (c : CommandManagerConstructor) (hw : WellFormed c) :
    Inv (mkCommandManager c) := by
  obtain ⟨hnodup, htick⟩ := hw
  have hperm := List.perm_insertionSort jsLE (c.playerId :: c.otherPlayerIds)
  have hsorted : (mkCommandManager c).sortedPlayerIds
      = List.insertionSort jsLE (c.playerId :: c.otherPlayerIds) := rfl
  refine ⟨?_, ?_, ?_, ?_, ?_, ?_, ?_, ?_, ?_, ?_⟩
  · rw [hsorted]
    exact hperm.nodup_iff.mpr hnodup
  · exact hperm.mem_iff.mpr (List.mem_cons_self _ _)
  · intro q hq
    exact hperm.mem_iff.mpr (List.mem_cons_of_mem _ hq)
  · show (keysOf (initTickCommandsMap _ _)).Nodup
    rw [keysOf_init]
    exact List.Nodup.map (fun a b hab => by exact_mod_cast hab)
      (List.nodup_range c.commandDelay)
  · intro tk tc h
    obtain ⟨rfl, _⟩ := init_lookup _ _ _ _ h
    rw [keysOf_map_pair]
    simpa using hperm.nodup_iff.mpr hnodup
  · intro tk tc h q hq
    obtain ⟨rfl, _⟩ := init_lookup _ _ _ _ h
    rw [keysOf_map_pair] at hq
    simp only [List.map_id'] at hq
    simpa using hq
  · intro q
    exact List.nodup_nil
  · intro q
    exact List.nodup_nil
  · intro k hk
    have : keysOf (mkCommandManager c).tickCommandsMap
        = (List.range c.commandDelay).map (fun t : Nat => (t : Int)) := keysOf_init _ _
    rw [this] at hk
    obtain ⟨t, ht, rfl⟩ := List.mem_map.mp hk
    show c.tick - (c.commandDelay : Int) - 1 ≤ (t : Int)
    rw [htick]
    exact le_trans (by omega : (0 : Int) - (c.commandDelay : Int) - 1 ≤ 0)
      (Int.natCast_nonneg t)
  · intro tk q cs h
    unfold lookup2 at h
    rcases hL : List.lookup tk (mkCommandManager c).tickCommandsMap with _ | tc
    · rw [hL] at h
      simp at h
    · rw [hL] at h
      simp only [Option.some_bind] at h
      obtain ⟨rfl, _⟩ := init_lookup _ _ _ _ hL
      have hm := lookup_mem _ _ _ h
      obtain ⟨pid, hpid, he⟩ := List.mem_map.mp hm
      obtain ⟨h1, h2⟩ := Prod.mk.injEq .. ▸ he
      rw [← h2]
      simp

/-! ### Step and reachability -/

theorem nextTick_fields (s : CommandManager) :
    (CommandManager.nextTick s).1.playerId = s.playerId ∧
    (CommandManager.nextTick s).1.otherPlayerIds = s.otherPlayerIds ∧
    (CommandManager.nextTick s).1.sortedPlayerIds = s.sortedPlayerIds ∧
    (CommandManager.nextTick s).1.commandDelay = s.commandDelay := by
  have hf := sendCommandsGo_fields (s.tick + s.commandDelay)
    (getCommandsForPlayer
      (CommandManager.scheduleEnqueuedCommands s (s.tick + s.commandDelay)).tickCommandsMap
      (s.tick + s.commandDelay)
      (CommandManager.scheduleEnqueuedCommands s (s.tick + s.commandDelay)).playerId)
    (CommandManager.scheduleEnqueuedCommands s (s.tick + s.commandDelay)).otherPlayerIds
    (CommandManager.scheduleEnqueuedCommands s (s.tick + s.commandDelay))
  exact ⟨hf.1, hf.2.1, hf.2.2.1, hf.2.2.2.1⟩

theorem receiveMessage_fields (s : CommandManager) (msg : NetworkMessage) :
    (CommandManager.receiveMessage s msg).playerId = s.playerId ∧
    (CommandManager.receiveMessage s msg).otherPlayerIds = s.otherPlayerIds ∧
    (CommandManager.receiveMessage s msg).sortedPlayerIds = s.sortedPlayerIds ∧
    (CommandManager.receiveMessage s msg).commandDelay = s.commandDelay := by
  have hf := receiveFold_fields msg.playerId msg.commands s
  exact ⟨hf.1, hf.2.1, hf.2.2.1, hf.2.2.2.1⟩

theorem Step_fields {s s' : CommandManager} (h : CommandManager.Step s s') :
    s'.playerId = s.playerId ∧ s'.otherPlayerIds = s.otherPlayerIds ∧
    s'.sortedPlayerIds = s.sortedPlayerIds ∧ s'.commandDelay = s.commandDelay := by
  cases h with
  | nextTick => exact nextTick_fields s
  | receive msg hm => exact receiveMessage_fields s msg
  | resend =>
    have hf := sendCommandsGo_fields (s.tick + s.commandDelay - 1)
      (getCommandsForPlayer s.tickCommandsMap (s.tick + s.commandDelay - 1) s.playerId)
      s.otherPlayerIds s
    exact ⟨hf.1, hf.2.1, hf.2.2.1, hf.2.2.2.1⟩
  | enqueue c => exact ⟨rfl, rfl, rfl, rfl⟩

theorem Step_inv {s s' : CommandManager} (h : CommandManager.Step s s') (hInv : Inv s) :
    Inv s' := by
  cases h with
  | nextTick => exact Inv_nextTick s hInv
  | receive msg hm => exact Inv_receiveMessage s msg hInv (hInv.othersMem _ hm)
  | resend => exact Inv_sendCommandsGo _ _ _ s hInv
  | enqueue c => exact Inv_enqueue s hInv _

theorem reachable_inv (c : CommandManagerConstructor) (s : CommandManager)
    (h : Reachable c s) (hw : WellFormed c) : Inv s := by
  induction h with
  | refl => exact Inv_init c hw
  | tail h1 h2 ih => exact Step_inv h2 ih

theorem reachable_fields (c : CommandManagerConstructor) (s : CommandManager)
    (h : Reachable c s) :
    s.playerId = c.playerId ∧ s.otherPlayerIds = c.otherPlayerIds ∧
    s.sortedPlayerIds = mkSortedPlayerIds c.playerId c.otherPlayerIds ∧
    s.commandDelay = c.commandDelay := by
  induction h with
  | refl => exact ⟨rfl, rfl, rfl, rfl⟩
  | tail h1 h2 ih =>
    obtain ⟨f1, f2, f3, f4⟩ := Step_fields h2
    exact ⟨f1.trans ih.1, f2.trans ih.2.1, f3.trans ih.2.2.1, f4.trans ih.2.2.2⟩

/-! ### Claim C2: the waitForTick gate -/

theorem length_le_of_nodup_subset {α : Type} [DecidableEq α] (l₁ l₂ : List α)
    (h₁ : l₁.Nodup) (h₂ : l₂.Nodup) (hsub : ∀ x ∈ l₁, x ∈ l₂) : l₁.length ≤ l₂.length := by
  rw [← List.toFinset_card_of_nodup h₁, ← List.toFinset_card_of_nodup h₂]
  exact Finset.card_le_card
    (fun x hx => List.mem_toFinset.mpr (hsub x (List.mem_toFinset.mp hx)))

theorem nodup_subset_length_mem {α : Type} [DecidableEq α] (l₁ l₂ : List α)
    (h₁ : l₁.Nodup) (h₂ : l₂.Nodup) (hsub : ∀ x ∈ l₁, x ∈ l₂)
    (hlen : l₂.length ≤ l₁.length) : ∀ x ∈ l₂, x ∈ l₁ := by
  have hfin : l₁.toFinset ⊆ l₂.toFinset :=
    fun x hx => List.mem_toFinset.mpr (hsub x (List.mem_toFinset.mp hx))
  have hcard : l₂.toFinset.card ≤ l₁.toFinset.card := by
    rw [List.toFinset_card_of_nodup h₁, List.toFinset_card_of_nodup h₂]
    exact hlen
  have hfe : l₁.toFinset = l₂.toFinset := Finset.eq_of_subset_of_card_le hfin hcard
  intro x hx
  exact List.mem_toFinset.mp (hfe ▸ List.mem_toFinset.mpr hx)

/-- Claim C2: the guard of `waitForTick`.  In every reachable manager state
of a well-formed wiring, `isTickReady t` — the condition under which, and
only under which, the `waitForTick` retry loop can return — holds exactly
when the tick-commands map has an entry at tick `t` for every known player
id (the local id plus every remote id).  In particular, under no
interleaving of message arrivals and resends can the loop exit while some
participant entry for `t` is missing. -/
theorem waitForTick_gate (c : CommandManagerConstructor) (s : CommandManager)
    (h : Reachable c s) (hw : WellFormed c) (t : Int) :
    isTickReady s.sortedPlayerIds s.tickCommandsMap t = true
      ↔ ∀ pid ∈ c.playerId :: c.otherPlayerIds,
          (lookup2 s.tickCommandsMap t pid).isSome = true := by
  have hInv := reachable_inv c s h hw
  have hfields := reachable_fields c s h
  have hperm : s.sortedPlayerIds.Perm (c.playerId :: c.otherPlayerIds) := by
    rw [hfields.2.2.1]
    exact List.perm_insertionSort jsLE _
  constructor
  · intro hr pid hpid
    unfold isTickReady at hr
    rcases hL : List.lookup t s.tickCommandsMap with _ | tc
    · rw [hL] at hr
      simp at hr
    · rw [hL] at hr
      have hlen : tc.length = s.sortedPlayerIds.length := by simpa using hr
      have hkeys_len : (keysOf tc).length = tc.length := List.length_map _ _
      have hmem : ∀ x ∈ s.sortedPlayerIds, x ∈ keysOf tc := by
        apply nodup_subset_length_mem _ _ (hInv.innerNodup t tc hL) hInv.sortedNodup
          (hInv.innerSub t tc hL)
        rw [hkeys_len, hlen]
      have hpid' : pid ∈ s.sortedPlayerIds := hperm.mem_iff.mpr hpid
      unfold lookup2
      rw [hL]
      simp only [Option.some_bind]
      exact (lookup_isSome_iff tc pid).mpr (hmem pid hpid')
  · intro hall
    have hself : (lookup2 s.tickCommandsMap t c.playerId).isSome = true :=
      hall c.playerId (List.mem_cons_self _ _)
    unfold lookup2 at hself
    rcases hL : List.lookup t s.tickCommandsMap with _ | tc
    · rw [hL] at hself
      simp at hself
    · have hsub2 : ∀ x ∈ s.sortedPlayerIds, x ∈ keysOf tc := by
        intro x hx
        have := hall x (hperm.mem_iff.mp hx)
        unfold lookup2 at this
        rw [hL] at this
        simp only [Option.some_bind] at this
        exact (lookup_isSome_iff tc x).mp this
      have hlen1 : s.sortedPlayerIds.length ≤ (keysOf tc).length :=
        length_le_of_nodup_subset _ _ hInv.sortedNodup (hInv.innerNodup t tc hL) hsub2
      have hlen2 : (keysOf tc).length ≤ s.sortedPlayerIds.length :=
        length_le_of_nodup_subset _ _ (hInv.innerNodup t tc hL) hInv.sortedNodup
          (hInv.innerSub t tc hL)
      have hkeys_len : (keysOf tc).length = tc.length := List.length_map _ _
      unfold isTickReady
      rw [hL]
      have : tc.length = s.sortedPlayerIds.length := by omega
      simp [this]

/-- Witness for C2: in the freshly constructed two-player manager, tick 0 is
ready, obtained through the gate characterization. -/
theorem waitForTick_gate_witness :
    isTickReady (mkCommandManager cW).sortedPlayerIds (mkCommandManager cW).tickCommandsMap 0
      = true :=
  (waitForTick_gate cW (mkCommandManager cW) Relation.ReflTransGen.refl ⟨by decide, rfl⟩ 0).mpr
    (by decide)

/-! ### Claim C8: pruning bound on the tick map -/

/-- Claim C8: in every reachable manager state of a well-formed wiring, the
tick-commands map has no entry strictly older than
`tick - commandDelay - 1`: `nextTick` prunes the single key that falls below
the bound when the tick advances, and neither the receive merge (guarded by
`tick >= this._tick`) nor scheduling (at `tick + commandDelay`) nor resends
(which do not touch the map) re-create an entry below it. -/
theorem tickmap_prune_bound (c : CommandManagerConstructor) (s : CommandManager)
    (h : Reachable c s) (hw : WellFormed c) (k : Int)
    (hk : k ∈ keysOf s.tickCommandsMap) :
    s.tick - (s.commandDelay : Int) - 1 ≤ k :=
  (reachable_inv c s h hw).tickBound k hk

/-- Witness for C8: evaluated at the freshly constructed manager, whose map
has the single pre-populated key 0. -/
theorem tickmap_prune_bound_witness :
    (mkCommandManager cW).tick - ((mkCommandManager cW).commandDelay : Int) - 1 ≤ 0 :=
  tickmap_prune_bound cW (mkCommandManager cW) Relation.ReflTransGen.refl ⟨by decide, rfl⟩ 0
    (by decide)

/-! ### Claim C9: stored command lists are never empty -/

/-- Claim C9: `addCommandsForPlayer` discards an empty payload without
creating any entry (so a retransmission carrying an empty command list for
an already-pruned tick neither re-creates a map entry nor contributes to
tick readiness), and consequently every command list stored in a reachable
tick-commands map is non-empty. -/
theorem stored_lists_nonempty (c : CommandManagerConstructor) (s : CommandManager)
    (h : Reachable c s) (hw : WellFormed c) (m : TickCommandsMap) (t2 tk : Int) (p q : Nat)
    (cs : List Command) :
    addCommandsForPlayer m t2 p [] = m ∧
      (lookup2 s.tickCommandsMap tk q = some cs → cs ≠ []) :=
  ⟨addCommandsForPlayer_nil m t2 p,
    fun hl => (reachable_inv c s h hw).valuesNonempty tk q cs hl⟩

/-- Witness for C9: discarding an empty payload on the empty map, and the
non-emptiness of the list stored for (tick 0, player 0) in the freshly
constructed manager. -/
theorem stored_lists_nonempty_witness :
    addCommandsForPlayer [] 5 1 [] = [] ∧ ([Command.noop 0] : List Command) ≠ [] := by
  have h := stored_lists_nonempty cW (mkCommandManager cW) Relation.ReflTransGen.refl
    ⟨by decide, rfl⟩ [] 5 0 1 0 [Command.noop 0]
  exact ⟨h.1, h.2 (by rfl)⟩

/-! ### Claim C1: deterministic command ordering -/

theorem flatten_eq_nil {α : Type} (l : List (List α)) (h : ∀ x ∈ l, x = []) :
    l.flatten = [] := by
  induction l with
  | nil => rfl
  | cons a tl ih =>
    rw [List.flatten_cons, h a (List.mem_cons_self _ _), List.nil_append]
    exact ih (fun x hx => h x (List.mem_cons_of_mem _ hx))

/-- Observer `getAllCommands` depends only on the per-(tick, playerId) lookups for the
participants — in particular not on the arrival order that built the map. -/
theorem getAllCommands_congr (ids : List Nat) (m₁ m₂ : TickCommandsMap) (t : Int)
    (h : ∀ pid ∈ ids, lookup2 m₁ t pid = lookup2 m₂ t pid) :
    getAllCommands ids m₁ t = getAllCommands ids m₂ t := by
  unfold getAllCommands
  rcases ha : List.lookup t m₁ with _ | tc₁ <;> rcases hb : List.lookup t m₂ with _ | tc₂
  · rfl
  · symm
    apply flatten_eq_nil
    intro x hx
    obtain ⟨pid, hpid, rfl⟩ := List.mem_map.mp hx
    have hp := h pid hpid
    unfold lookup2 at hp
    rw [ha, hb] at hp
    simp only [Option.none_bind, Option.some_bind] at hp
    rw [← hp]
    rfl
  · apply flatten_eq_nil
    intro x hx
    obtain ⟨pid, hpid, rfl⟩ := List.mem_map.mp hx
    have hp := h pid hpid
    unfold lookup2 at hp
    rw [ha, hb] at hp
    simp only [Option.none_bind, Option.some_bind] at hp
    rw [hp]
    rfl
  · show (ids.map (fun playerId => (List.lookup playerId tc₁).getD [])).flatten
      = (ids.map (fun playerId => (List.lookup playerId tc₂).getD [])).flatten
    congr 1
    apply List.map_congr_left
    intro pid hpid
    have hp := h pid hpid
    unfold lookup2 at hp
    rw [ha, hb] at hp
    simp only [Option.some_bind] at hp
    rw [hp]

/-- Counterexample to C1 as stated: with participants 2 and 10 the JS default
sort (string order) yields [10, 2], so for a tick that has commands from
every participant, `getAllCommands` returns the commands of player 10 before
those of player 2 — not the ascending player-id concatenation. -/
theorem getAllCommands_counterexample :
    isTickReady sCex.sortedPlayerIds sCex.tickCommandsMap 0 = true
  ∧ getAllCommands sCex.sortedPlayerIds sCex.tickCommandsMap 0
      = [Command.noop 10, Command.noop 2]
  ∧ getAllCommands sCex.sortedPlayerIds sCex.tickCommandsMap 0
      ≠ [Command.noop 2, Command.noop 10] := by
  have h2 : getAllCommands sCex.sortedPlayerIds sCex.tickCommandsMap 0
      = [Command.noop 10, Command.noop 2] := rfl
  refine ⟨rfl, h2, ?_⟩
  intro hc
  rw [h2] at hc
  simp at hc

/-- Claim C1 (amended): for every reachable manager state, `getAllCommands`
returns the concatenation of the participants' command lists in the order of
`sortedPlayerIds` — the JS default sort of the ids, i.e. lexicographic on
their decimal representations (ascending numeric order whenever the ids have
equally many digits, as for the demo ids 0-3) — with missing per-player
entries treated as empty; and the result depends only on the stored
(tick, playerId) lists, hence is independent of network arrival order. -/
theorem getAllCommands_spec (c : CommandManagerConstructor) (s : CommandManager)
    (h : Reachable c s) (t : Int) (m2 : TickCommandsMap)
    (hm2 : ∀ pid ∈ s.sortedPlayerIds, lookup2 s.tickCommandsMap t pid = lookup2 m2 t pid) :
    List.Sorted jsLE s.sortedPlayerIds
  ∧ s.sortedPlayerIds.Perm (c.playerId :: c.otherPlayerIds)
  ∧ (∀ tc, List.lookup t s.tickCommandsMap = some tc →
      getAllCommands s.sortedPlayerIds s.tickCommandsMap t
        = (s.sortedPlayerIds.map (fun pid => (List.lookup pid tc).getD [])).flatten)
  ∧ getAllCommands s.sortedPlayerIds s.tickCommandsMap t
      = getAllCommands s.sortedPlayerIds m2 t := by
  have hfields := reachable_fields c s h
  refine ⟨?_, ?_, ?_, getAllCommands_congr _ _ _ _ hm2⟩
  · rw [hfields.2.2.1]
    exact List.sorted_insertionSort jsLE _
  · rw [hfields.2.2.1]
    exact List.perm_insertionSort jsLE _
  · intro tc hL
    unfold getAllCommands
    rw [hL]

/-- Witness for C1 (amended): the fresh two-player manager and a map whose
inner entries for tick 0 arrived in the opposite order produce the same
command sequence. -/
theorem getAllCommands_spec_witness :
    getAllCommands (mkCommandManager cW).sortedPlayerIds (mkCommandManager cW).tickCommandsMap 0
      = getAllCommands (mkCommandManager cW).sortedPlayerIds
          [((0 : Int), [(1, [Command.noop 1]), (0, [Command.noop 0])])] 0 :=
  (getAllCommands_spec cW (mkCommandManager cW) Relation.ReflTransGen.refl 0
      [((0 : Int), [(1, [Command.noop 1]), (0, [Command.noop 0])])]
      (by
        intro pid hpid
        have hs : (mkCommandManager cW).sortedPlayerIds = [0, 1] := rfl
        rw [hs] at hpid
        simp only [List.mem_cons, List.not_mem_nil, or_false] at hpid
        rcases hpid with rfl | rfl <;> rfl)).2.2.2

/-! ### Claim C7: ack lifecycle -/

theorem receiveFold_ackMono (sender : Nat) (t : Int) :
    ∀ (entries : List (Int × List Command)) (acc : CommandManager),
      t ∈ acc.acksToSend sender →
      t ∈ (entries.foldl (CommandManager.receiveEntry sender) acc).acksToSend sender := by
  intro entries
  induction entries with
  | nil => intro acc h; exact h
  | cons e tl ih =>
    intro acc h
    simp only [List.foldl_cons]
    apply ih
    show t ∈ Function.update acc.acksToSend sender (setAdd (acc.acksToSend sender) e.1) sender
    rw [Function.update_same]
    exact setAdd_mem _ _ _ h

theorem receiveFold_ackRecorded (sender : Nat) (t : Int) :
    ∀ (entries : List (Int × List Command)) (acc : CommandManager),
      t ∈ entries.map Prod.fst →
      t ∈ (entries.foldl (CommandManager.receiveEntry sender) acc).acksToSend sender := by
  intro entries
  induction entries with
  | nil => intro acc h; simp at h
  | cons e tl ih =>
    intro acc h
    simp only [List.map_cons, List.mem_cons] at h
    simp only [List.foldl_cons]
    by_cases he : t = e.1
    · apply receiveFold_ackMono
      show t ∈ Function.update acc.acksToSend sender (setAdd (acc.acksToSend sender) e.1) sender
      rw [Function.update_same, he]
      exact setAdd_mem_self _ _
    · rcases h with h | h
      · exact absurd h he
      · exact ih _ h

/-- Claim C7: the ack lifecycle.  (1) Processing a message from peer P whose
ack list contains tick t removes t from the pending-ack set for P.  (2) Once
a message entry for tick t from peer P has been processed, t is in the
ack-to-send set for P.  (3) The next message built for P by `sendCommands`
carries each owed tick exactly once (the set is duplicate-free), and the set
is cleared when the message is built. -/
theorem ack_lifecycle (s : CommandManager) (msg : NetworkMessage) (tick t : Int) (P : Nat) :
    (t ∈ msg.acks → t ∉ (CommandManager.receiveMessage s msg).pendingAcks msg.playerId)
  ∧ (t ∈ msg.commands.map Prod.fst →
      t ∈ (CommandManager.receiveMessage s msg).acksToSend msg.playerId)
  ∧ (P ∈ s.otherPlayerIds → (s.acksToSend P).Nodup → t ∈ s.acksToSend P →
      ((List.lookup P (CommandManager.sendCommands s tick).2).map
          (fun m => m.acks.count t) = some 1
        ∧ (CommandManager.sendCommands s tick).1.acksToSend P = [])) := by
  refine ⟨?_, ?_, ?_⟩
  · intro ht
    show t ∉ Function.update
        (msg.commands.foldl (CommandManager.receiveEntry msg.playerId) s).pendingAcks
        msg.playerId
        (msg.acks.foldl setDelete
          ((msg.commands.foldl (CommandManager.receiveEntry msg.playerId) s).pendingAcks
            msg.playerId))
        msg.playerId
    rw [Function.update_same]
    exact foldl_setDelete_not_mem _ _ _ (Or.inl ht)
  · intro ht
    exact receiveFold_ackRecorded msg.playerId t msg.commands s ht
  · intro hP hnodup ht
    unfold CommandManager.sendCommands
    constructor
    · rw [sendCommandsGo_lookup _ _ _ _ _ hP]
      show some ((CommandManager.buildMessage s tick
          (getCommandsForPlayer s.tickCommandsMap tick s.playerId) P).acks.count t) = some 1
      show some ((s.acksToSend P).count t) = some 1
      rw [List.count_eq_one_of_mem hnodup ht]
    · rw [sendCommandsGo_acksToSend]
      simp [hP]

/-- Witness for C7: evaluated on the concrete state `sAck` and message
`msgAck`: ack 5 is cleared from the pending set, tick 9 becomes owed, and
the message built for peer 1 carries owed tick 3 exactly once while the
owed set is cleared. -/
theorem ack_lifecycle_witness :
    ((5 : Int) ∉ (CommandManager.receiveMessage sAck msgAck).pendingAcks 1)
  ∧ ((9 : Int) ∈ (CommandManager.receiveMessage sAck msgAck).acksToSend 1)
  ∧ ((List.lookup 1 (CommandManager.sendCommands sAck 2).2).map
        (fun m => m.acks.count 3) = some 1
      ∧ (CommandManager.sendCommands sAck 2).1.acksToSend 1 = []) :=
  ⟨(ack_lifecycle sAck msgAck 2 5 1).1 (by decide),
    (ack_lifecycle sAck msgAck 2 9 1).2.1 (by decide),
    (ack_lifecycle sAck msgAck 2 3 1).2.2 (by decide) (by decide) (by decide)⟩

/-! ### Claim C10: duplicate socket creation -/

/-- Claim C10: `createSocket` returns a new socket bound to the player id and
registers it (leaving every other registration unchanged) when no socket for
the id exists, and fails with the configuration error when a socket for the
id already exists — in which case nothing is registered or modified (the
model returns no state on the error path, matching the JS `throw` before any
mutation). -/
theorem createSocket_spec (net : Network) (playerId : Nat) (options : SocketOptions)
    (q : Nat) (hq : q ≠ playerId) :
    (List.lookup playerId net.sockets = none →
        createSocket net playerId options
          = Except.ok
              (⟨playerId, options⟩,
                { sockets := net.sockets ++ [(playerId, options)]
                  inboxes := net.inboxes ++ [(playerId, Inbox.init)] })
      ∧ List.lookup playerId (net.sockets ++ [(playerId, options)]) = some options
      ∧ List.lookup q (net.sockets ++ [(playerId, options)]) = List.lookup q net.sockets)
  ∧ ((List.lookup playerId net.sockets).isSome = true →
      createSocket net playerId options
        = Except.error ("Socket for player " ++ Nat.repr playerId ++ " already exists")) := by
  constructor
  · intro hnone
    refine ⟨?_, ?_, ?_⟩
    · unfold createSocket
      simp [hnone]
    · rw [lookup_append, hnone]
      simp [List.lookup_cons]
    · rw [lookup_append]
      rcases h : List.lookup q net.sockets with _ | v
      · have hb : (q == playerId) = false := by simp [hq]
        simp [List.lookup_cons, hb]
      · simp
  · intro hsome
    unfold createSocket
    rw [if_pos hsome]

/-- Witness for C10: creating a socket for the unused id 3 succeeds and
creating a second socket for the registered id 1 fails. -/
theorem createSocket_spec_witness :
    createSocket netW 3 optsW
      = Except.ok
          (⟨3, optsW⟩,
            { sockets := netW.sockets ++ [(3, optsW)]
              inboxes := netW.inboxes ++ [(3, Inbox.init)] })
  ∧ createSocket netW 1 optsW
      = Except.error ("Socket for player " ++ Nat.repr 1 ++ " already exists") :=
  ⟨((createSocket_spec netW 3 optsW 1 (by decide)).1 (by rfl)).1,
    (createSocket_spec netW 1 optsW 0 (by decide)).2 (by rfl)⟩

/-! ### Claim C4: the single-slot inbound handoff loses accepted messages -/

/-- Claim C4 fails on the code: the inbound handoff of `createSocket` is a
single resolver slot, not a FIFO queue.  With the receiver of player 1 busy
consuming `msgA` (its generator not yet re-awaited, so `trigger` is null),
a second accepted message `msgB` — both packet-loss rolls pass — completes
`sendMessage` successfully yet leaves the network state completely
unchanged: `msgB` is silently dropped, contradicting the requirement that
an accepted message is never lost. -/
theorem inbox_single_slot_drop :
    sendMessage netReady 0 1 msgA false false = Except.ok netAfterA
  ∧ List.lookup 1 netAfterA.inboxes = some { awaiting := false, delivered := [msgA] }
  ∧ sendMessage netAfterA 0 1 msgB false false = Except.ok netAfterA
  ∧ msgA ≠ msgB := by
  refine ⟨rfl, rfl, rfl, ?_⟩
  intro h
  simp [msgA, msgB] at h

/-! ### Unit movement: single-step behaviour and convergence -/

theorem stepU_snap (f : Frame) (u : Unit) (t : ℝ × ℝ) (ht : u.target = some t)
    (hle : dist2 u.position t ≤ u.speed) :
    (stepU f u).position = t ∧ (stepU f u).target = none := by
  have hle' : Real.sqrt ((t.1 - u.position.1) * (t.1 - u.position.1)
      + (t.2 - u.position.2) * (t.2 - u.position.2)) ≤ u.speed := hle
  unfold stepU Unit.update
  rw [ht]
  simp only [if_pos hle']
  exact ⟨trivial, trivial⟩

theorem stepU_far (f : Frame) (u : Unit) (t : ℝ × ℝ) (ht : u.target = some t)
    (hgt : u.speed < dist2 u.position t) :
    (stepU f u).position
        = (u.position.1 + u.speed * (t.1 - u.position.1) / dist2 u.position t,
           u.position.2 + u.speed * (t.2 - u.position.2) / dist2 u.position t)
      ∧ (stepU f u).target = some t ∧ (stepU f u).speed = u.speed := by
  have hgt' : ¬ Real.sqrt ((t.1 - u.position.1) * (t.1 - u.position.1)
      + (t.2 - u.position.2) * (t.2 - u.position.2)) ≤ u.speed := not_le.mpr hgt
  unfold stepU Unit.update
  rw [ht]
  simp only [if_neg hgt']
  exact ⟨rfl, trivial, trivial⟩

/-- Moving along the normalized displacement by `speed` shortens the distance
to the target by exactly `speed` (exact real arithmetic). -/
theorem dist2_stepU_far (f : Frame) (u : Unit) (t : ℝ × ℝ) (ht : u.target = some t)
    (hS : 0 < u.speed) (hgt : u.speed < dist2 u.position t) :
    dist2 (stepU f u).position t = dist2 u.position t - u.speed := by
  obtain ⟨hpos, htar, hspd⟩ := stepU_far f u t ht hgt
  set d := dist2 u.position t with hd
  set dx := t.1 - u.position.1 with hdx
  set dy := t.2 - u.position.2 with hdy
  have hd0 : 0 < d := lt_trans hS hgt
  have hnn : 0 ≤ dx * dx + dy * dy :=
    add_nonneg (mul_self_nonneg dx) (mul_self_nonneg dy)
  have hsum : dx * dx + dy * dy = d * d := (Real.mul_self_sqrt hnn).symm
  rw [hpos]
  unfold dist2
  have e1 : t.1 - (u.position.1 + u.speed * dx / d) = dx * ((d - u.speed) / d) := by
    rw [hdx]
    field_simp
    ring
  have e2 : t.2 - (u.position.2 + u.speed * dy / d) = dy * ((d - u.speed) / d) := by
    rw [hdy]
    field_simp
    ring
  rw [e1, e2]
  have e3 : dx * ((d - u.speed) / d) * (dx * ((d - u.speed) / d))
      + dy * ((d - u.speed) / d) * (dy * ((d - u.speed) / d))
      = (d - u.speed) * (d - u.speed) := by
    have e4 : dx * ((d - u.speed) / d) * (dx * ((d - u.speed) / d))
        + dy * ((d - u.speed) / d) * (dy * ((d - u.speed) / d))
        = (dx * dx + dy * dy) * ((d - u.speed) / d * ((d - u.speed) / d)) := by ring
    rw [e4, hsum]
    field_simp
  rw [e3]
  exact Real.sqrt_mul_self (by linarith)

theorem stepU_iterate_far (f : Frame) :
    ∀ (k : Nat) (u : Unit) (t : ℝ × ℝ), u.target = some t → 0 < u.speed →
      (k : ℝ) * u.speed < dist2 u.position t →
      ((stepU f)^[k] u).target = some t ∧ ((stepU f)^[k] u).speed = u.speed ∧
        dist2 ((stepU f)^[k] u).position t = dist2 u.position t - k * u.speed := by
  intro k
  induction k with
  | zero =>
    intro u t ht hS hlt
    exact ⟨ht, rfl, by simp⟩
  | succ k ih =>
    intro u t ht hS hlt
    have h1 : u.speed < dist2 u.position t := by
      have hk1 : (1 : ℝ) ≤ ((k + 1 : Nat) : ℝ) := by
        exact_mod_cast Nat.one_le_iff_ne_zero.mpr (Nat.succ_ne_zero k)
      nlinarith
    have hfar := stepU_far f u t ht h1
    have hd := dist2_stepU_far f u t ht hS h1
    have hlt2 : (k : ℝ) * (stepU f u).speed < dist2 (stepU f u).position t := by
      rw [hfar.2.2, hd]
      push_cast at hlt
      linarith
    have ih2 := ih (stepU f u) t hfar.2.1 (by rw [hfar.2.2]; exact hS) hlt2
    rw [Function.iterate_succ_apply]
    refine ⟨ih2.1, by rw [ih2.2.1, hfar.2.2], ?_⟩
    rw [ih2.2.2, hd, hfar.2.2]
    push_cast
    ring

/-- Claim C3: with a target at distance D > 0 and speed S > 0, iterating
`update` reaches the target in exactly `⌈D/S⌉` steps: the position after the
final step equals the target exactly and the target is cleared, while after
every earlier step k the target is still set and the distance is exactly
D - k·S — strictly positive, so the unit arrives neither early nor ever
overshoots past the target (the distance decreases by exactly S per step
along the segment towards the target). -/
theorem unit_reaches_target (f : Frame) (u : Unit) (t : ℝ × ℝ) (n : Nat)
    (ht : u.target = some t) (hS : 0 < u.speed) (hD : 0 < dist2 u.position t)
    (hn : n = ⌈dist2 u.position t / u.speed⌉₊) :
    ((stepU f)^[n] u).position = t ∧ ((stepU f)^[n] u).target = none ∧
      ∀ k < n, ((stepU f)^[k] u).target = some t ∧
        dist2 ((stepU f)^[k] u).position t = dist2 u.position t - k * u.speed ∧
        0 < dist2 ((stepU f)^[k] u).position t := by
  have hn1 : 1 ≤ n := by
    rw [hn]
    exact Nat.ceil_pos.mpr (div_pos hD hS)
  obtain ⟨m, rfl⟩ : ∃ m, n = m + 1 := ⟨n - 1, by omega⟩
  have hstep : ∀ k, k < m + 1 → (k : ℝ) * u.speed < dist2 u.position t := by
    intro k hk
    have hk2 : (k : ℝ) < dist2 u.position t / u.speed := Nat.lt_ceil.mp (hn ▸ hk)
    exact (lt_div_iff₀ hS).mp hk2
  have hclause : ∀ k < m + 1, ((stepU f)^[k] u).target = some t ∧
      dist2 ((stepU f)^[k] u).position t = dist2 u.position t - k * u.speed ∧
      0 < dist2 ((stepU f)^[k] u).position t := by
    intro k hk
    have hit := stepU_iterate_far f k u t ht hS (hstep k hk)
    refine ⟨hit.1, hit.2.2, ?_⟩
    rw [hit.2.2]
    have := hstep k hk
    linarith
  have hm : (m : ℝ) * u.speed < dist2 u.position t := hstep m (Nat.lt_succ_self m)
  have hiter := stepU_iterate_far f m u t ht hS hm
  have hud : dist2 ((stepU f)^[m] u).position t ≤ ((stepU f)^[m] u).speed := by
    rw [hiter.2.1, hiter.2.2]
    have hle : dist2 u.position t / u.speed ≤ ((m + 1 : Nat) : ℝ) := by
      have h2 := Nat.le_ceil (dist2 u.position t / u.speed)
      rw [← hn] at h2
      exact_mod_cast h2
    have h3 : dist2 u.position t ≤ ((m + 1 : Nat) : ℝ) * u.speed := (div_le_iff₀ hS).mp hle
    push_cast at h3
    linarith
  have hsnap := stepU_snap f ((stepU f)^[m] u) t hiter.1 hud
  rw [Function.iterate_succ_apply']
  exact ⟨hsnap.1, hsnap.2, hclause⟩

/-- Witness for C3: the unit `uFar` (distance 12, speed 5) arrives exactly
on target after ⌈12/5⌉ = 3 updates. -/
theorem unit_reaches_target_witness :
    ((stepU fNone)^[3] uFar).position = ((0 : ℝ), (12 : ℝ))
      ∧ ((stepU fNone)^[3] uFar).target = none := by
  have hd : dist2 uFar.position ((0 : ℝ), (12 : ℝ)) = 12 := by
    show dist2 ((0 : ℝ), (0 : ℝ)) ((0 : ℝ), (12 : ℝ)) = 12
    unfold dist2
    norm_num
    rw [show (144 : ℝ) = 12 * 12 by norm_num, Real.sqrt_mul_self (by norm_num)]
  have h := unit_reaches_target fNone uFar ((0 : ℝ), (12 : ℝ)) 3 rfl
    (by show (0 : ℝ) < 5; norm_num) (by rw [hd]; norm_num)
    (by
      rw [hd]
      show (3 : Nat) = ⌈(12 : ℝ) / (5 : ℝ)⌉₊
      symm
      rw [Nat.ceil_eq_iff (by norm_num)]
      constructor <;> norm_num)
  exact ⟨h.1, h.2.1⟩

/-- Claim C6: one `update` step with a set target computes the displacement
by exact subtraction and the distance as the square root of the summed
squared components; if the distance is at most the speed it sets the
position exactly onto the target and clears it, otherwise it advances the
position by exactly `speed` along the normalized displacement (the distance
moved is exactly `speed`) and keeps the target. -/
theorem unit_update_step (u : Unit) (f : Frame) (t : ℝ × ℝ) (ht : u.target = some t)
    (hS : 0 ≤ u.speed) :
    (dist2 u.position t ≤ u.speed →
       (u.update f).1.position = t ∧ (u.update f).1.target = none)
  ∧ (u.speed < dist2 u.position t →
       (u.update f).1.position
         = (u.position.1 + u.speed * (t.1 - u.position.1) / dist2 u.position t,
            u.position.2 + u.speed * (t.2 - u.position.2) / dist2 u.position t)
       ∧ (u.update f).1.target = some t
       ∧ dist2 u.position (u.update f).1.position = u.speed) := by
  constructor
  · intro hle
    exact stepU_snap f u t ht hle
  · intro hgt
    obtain ⟨hpos, htar, hspd⟩ := stepU_far f u t ht hgt
    refine ⟨hpos, htar, ?_⟩
    show dist2 u.position (stepU f u).position = u.speed
    rw [hpos]
    set d := dist2 u.position t with hd
    set dx := t.1 - u.position.1 with hdx
    set dy := t.2 - u.position.2 with hdy
    have hd0 : 0 < d := lt_of_le_of_lt hS hgt
    have hnn : 0 ≤ dx * dx + dy * dy :=
      add_nonneg (mul_self_nonneg dx) (mul_self_nonneg dy)
    have hsum : dx * dx + dy * dy = d * d := (Real.mul_self_sqrt hnn).symm
    unfold dist2
    have e1 : u.position.1 + u.speed * dx / d - u.position.1 = u.speed * dx / d := by ring
    have e2 : u.position.2 + u.speed * dy / d - u.position.2 = u.speed * dy / d := by ring
    rw [e1, e2]
    have e3 : u.speed * dx / d * (u.speed * dx / d) + u.speed * dy / d * (u.speed * dy / d)
        = u.speed * u.speed := by
      have e4 : u.speed * dx / d * (u.speed * dx / d) + u.speed * dy / d * (u.speed * dy / d)
          = (dx * dx + dy * dy) * (u.speed / d * (u.speed / d)) := by ring
      rw [e4, hsum]
      field_simp
    rw [e3]
    exact Real.sqrt_mul_self hS

/-- Witness for C6: the unit `uSnap` (distance 5, speed 5) snaps exactly
onto its target in one update. -/
theorem unit_update_step_witness :
    (uSnap.update fNone).1.position = ((3 : ℝ), (4 : ℝ))
      ∧ (uSnap.update fNone).1.target = none := by
  have hd : dist2 uSnap.position ((3 : ℝ), (4 : ℝ)) = 5 := by
    show dist2 ((0 : ℝ), (0 : ℝ)) ((3 : ℝ), (4 : ℝ)) = 5
    unfold dist2
    norm_num
    rw [show (25 : ℝ) = 5 * 5 by norm_num, Real.sqrt_mul_self (by norm_num)]
  exact (unit_update_step uSnap fNone ((3 : ℝ), (4 : ℝ)) rfl
    (by show (0 : ℝ) ≤ 5; norm_num)).1 (by rw [hd]; show (5 : ℝ) ≤ 5; norm_num)

end Lockstep
